import Mathlib

/-!
# Verification of `fixture_generator.py`

A shallow embedding of the scheduling core of the repository's
`src/fixture_generator.py` (zone assignment, round-robin generation,
timeslot enumeration, greedy slot binding), together with proofs about the
specification's claims.

Conventions of the embedding:

* Python `int` values that are manifestly non-negative in the program
  (day numbers, field counts, durations, minute counts, indices) are
  modelled as `Nat`; values that mix signs (the `-1_000_000`
  "never played" sentinel, the `rest` parameter it is compared against,
  absolute times in those comparisons) are modelled as `Int`.
* Python strings are Lean `String`s.  `str.split(':')` and `int(...)` on
  digit strings are modelled character-by-character (`splitOnChar`,
  `strToNatDigits`).
* The Python `dict` `last_played` is modelled as a function
  `String → Option Int` (`.get(k, d)` becomes `(f k).getD d`).
* The `while` loop of `_generate_timeslots` does not terminate for
  `match_duration = 0`; it is modelled with explicit fuel, and fuel
  exhaustion (i.e. divergence of the Python program) is modelled as
  `none`.  Likewise `generate_fixture` returns `Option`: `none` models
  either divergence of the slot loop or the `RuntimeError` raised when a
  match cannot be placed.
-/

namespace FixtureGen

/-- `Team` dataclass: `{name, zone}`. -/
structure Team where
  name : String
  zone : String
  deriving DecidableEq, Repr

/-- `Match` dataclass: a scheduled match. -/
structure Match where
  day : Nat
  time : String
  field : String
  home : String
  away : String
  zone : String
  round : Nat
  match_id : Nat
  deriving DecidableEq, Repr

/-! ## Decimal rendering of naturals (`f"{n}"` / `str(n)`)

Python renders numbers in decimal.  `Nat.repr` in Lean does the same via
`Nat.toDigitsCore`; we introduce a structurally recursive equivalent
(`decDigits`) to reason about it. -/

/-- The decimal digit list of `n`, most significant first (the digit list
underlying Python's `str(n)` and Lean's `Nat.repr n`). -/
def decDigits (n : Nat) : List Char :=
  if _h : n < 10 then [Nat.digitChar n]
  else decDigits (n / 10) ++ [Nat.digitChar (n % 10)]
  decreasing_by exact Nat.div_lt_self (by omega) (by omega)

/-- Decimal value of a digit character list: the model of Python's `int()`
on a (non-empty, sign-free) digit string. -/
def strToNatDigits (l : List Char) : Nat :=
  l.foldl (fun a c => 10 * a + (c.toNat - 48)) 0

/-- Python's `s.split(c)` for a one-character separator, on the character
list of `s`. -/
def splitOnChar (c : Char) : List Char → List (List Char)
  | [] => [[]]
  | x :: xs =>
    match splitOnChar c xs with
    | [] => []
    | g :: gs => if x = c then [] :: g :: gs else (x :: g) :: gs

/-- `_time_to_minutes`: `h, m = map(int, time_str.split(':')); h * 60 + m`.
(The fallback branch is unreachable for the `"HH:MM"` strings the program
uses; Python would raise there.) -/
def _time_to_minutes (s : String) : Nat :=
  match splitOnChar ':' s.data with
  | [h, m] => strToNatDigits h * 60 + strToNatDigits m
  | _ => 0

/-- Python's `f"{n:02d}"` for `n ≥ 0`: pad the decimal form to width 2
with a leading zero. -/
def pad2 (n : Nat) : String :=
  if n < 10 then "0" ++ Nat.repr n else Nat.repr n

/-- `_minutes_to_time`: `f"{minutes // 60:02d}:{minutes % 60:02d}"`. -/
def _minutes_to_time (minutes : Nat) : String :=
  pad2 (minutes / 60) ++ ":" ++ pad2 (minutes % 60)

/-! ## Zone assignment (`assign_zones`)

The Python function mutates the `zone` field of the `Team` objects and
returns the list; the value-level behaviour is captured by returning the
updated list.  (The aliasing side effect itself is modelled separately by
`assign_zones_store` below, for the frame-effect claim.) -/

/-- Python's `system.lower()`, character by character (the system codes
are ASCII). -/
def strLower (s : String) : String :=
  ⟨s.data.map Char.toLower⟩

/-- `zones = [chr(ord('A') + i) for i in range(n // group_size)]`. -/
def zoneLabels (count : Nat) : List String :=
  (List.range count).map (fun i => String.singleton (Char.ofNat ('A'.toNat + i)))

/-- The reassignment loop: `team.zone = zones[idx // group_size]`. -/
def setZonesBySize (teams : List Team) (group_size : Nat) : List Team :=
  let zones := zoneLabels (teams.length / group_size)
  teams.enum.map fun p => { p.2 with zone := zones.getD (p.1 / group_size) "" }

/-- `assign_zones(teams, system)`: if every team already carries a
(non-empty, i.e. truthy) zone, return unchanged; system `'8x3'` with 24
teams makes groups of 3, `'4x6'` with 24 teams groups of 6; anything else
puts every team in zone `'A'`. -/
def assign_zones (teams : List Team) (system : String) : List Team :=
  if teams.all (fun t => t.zone ≠ "") then teams
  else
    let n := teams.length
    let sys := strLower system
    if sys = "8x3" ∧ n = 24 then setZonesBySize teams 3
    else if sys = "4x6" ∧ n = 24 then setZonesBySize teams 6
    else teams.map (fun t => { t with zone := "A" })

/-! ## Round-robin generation (`generate_round_robin`) -/

/-- One rotation step: `teams = [teams[0]] + teams[-1:] + teams[1:-1]`
(Python slice semantics). -/
def rotateOnce (teams : List String) : List String :=
  teams.take 1 ++ teams.drop (teams.length - 1) ++ (teams.drop 1).dropLast

/-- The pairs of one round: `teams[i]` against `teams[n-1-i]` for
`i in range(n // 2)`, skipping pairs that involve the `'BYE'` sentinel. -/
def roundPairs (teams : List String) : List (String × String) :=
  (List.range (teams.length / 2)).filterMap fun i =>
    let home := teams.getD i ""
    let away := teams.getD (teams.length - 1 - i) ""
    if home ≠ "BYE" ∧ away ≠ "BYE" then some (home, away) else none

/-- The `for round_idx in range(n - 1)` loop: emit the current round's
pairs, rotate, repeat. -/
def rrRounds (teams : List String) : Nat → List (List (String × String))
  | 0 => []
  | k + 1 => roundPairs teams :: rrRounds (rotateOnce teams) k

/-- `generate_round_robin(team_names, home_and_away)`: add a `'BYE'` when
the team count is odd, run `n - 1` rounds of the circle method, and with
`home_and_away` append a mirrored second leg. -/
def generate_round_robin (team_names : List String) (home_and_away : Bool := false) :
    List (List (String × String)) :=
  let teams := if team_names.length % 2 = 1 then team_names ++ ["BYE"] else team_names
  let rounds := rrRounds teams (teams.length - 1)
  if home_and_away then
    rounds ++ rounds.map (fun rnd => rnd.map fun p => (p.2, p.1))
  else rounds

/-- Total number of occurrences of the ordered pairing `p` across all
rounds of a generated schedule (counting vocabulary for the round-robin
claims). -/
def pairOccs (rounds : List (List (String × String))) (p : String × String) : Nat :=
  (rounds.map fun rnd => rnd.count p).sum

/-! ## Timeslot enumeration (`_generate_timeslots`)

A slot is the tuple `(day, time, field, index)` exactly as built by the
Python code.  The inner `while` loop runs with fuel `end_min + 1`; for
`match_duration ≥ 1` each iteration strictly increases `current`, so this
fuel is always sufficient, while for `match_duration = 0` with an
in-window `current` the Python loop never terminates and the model
returns `none`. -/

/-- A timeslot `(day, time, field, index)`. -/
abbrev Slot := Nat × String × String × Nat

/-- `break_start <= current < break_end` (with no break configured the
test is vacuously false). -/
def inBreak (brk : Option (Nat × Nat)) (current : Nat) : Bool :=
  match brk with
  | none => false
  | some (bs, be) => bs ≤ current && current < be

/-- `current = break_end`: the jump target of the midday-break skip. -/
def breakJump (brk : Option (Nat × Nat)) : Nat :=
  match brk with
  | none => 0
  | some (_, be) => be

/-- One day's `while current + match_duration <= end_min` loop.  Returns
the emitted slots and the updated running `index`, or `none` when the
fuel is exhausted (the Python loop diverges). -/
def slotDayLoop (endMin dur : Nat) (brk : Option (Nat × Nat)) (flds : Nat) (day : Nat) :
    Nat → Nat → Nat → Option (List Slot × Nat)
  | 0, _, _ => none
  | fuel + 1, current, index =>
    if current + dur ≤ endMin then
      if inBreak brk current then
        slotDayLoop endMin dur brk flds day fuel (breakJump brk) index
      else
        match slotDayLoop endMin dur brk flds day fuel (current + dur) (index + flds) with
        | none => none
        | some (restSlots, index') =>
          some (((List.range flds).map fun k =>
            (day, _minutes_to_time current, "c" ++ Nat.repr (k + 1), index + k)) ++ restSlots,
            index')
    else some ([], index)

/-- The `for day in range(1, days + 1)` loop, threading the `index`
counter across days. -/
def slotDays (endMin startMin dur : Nat) (brk : Option (Nat × Nat)) (flds : Nat) :
    List Nat → Nat → Option (List Slot)
  | [], _ => some []
  | d :: ds, index =>
    match slotDayLoop endMin dur brk flds d (endMin + 1) startMin index with
    | none => none
    | some (l, index') =>
      match slotDays endMin startMin dur brk flds ds index' with
      | none => none
      | some rest => some (l ++ rest)

/-- `_generate_timeslots(days, fields, start_time, end_time,
match_duration, midday_break)`. -/
def _generate_timeslots (days fields : Nat) (start_time end_time : String)
    (match_duration : Nat) (midday_break : Option (String × String) := none) :
    Option (List Slot) :=
  let start_min := _time_to_minutes start_time
  let end_min := _time_to_minutes end_time
  let brk := midday_break.map fun p => (_time_to_minutes p.1, _time_to_minutes p.2)
  slotDays end_min start_min match_duration brk fields ((List.range days).map (· + 1)) 0

/-! ## The scheduler (`generate_fixture`) -/

/-- `last_played.get(team, -1_000_000)`. -/
def lpGet (lp : String → Option Int) (t : String) : Int :=
  (lp t).getD (-1000000)

/-- The absolute time of a slot:
`(day - 1) * 24 * 60 + _time_to_minutes(time_str)`. -/
def slotAbs (day : Nat) (time_str : String) : Int :=
  ((day : Int) - 1) * 24 * 60 + (_time_to_minutes time_str : Int)

/-- The three `continue` tests of the inner candidate-slot loop, as one
feasibility predicate on an `enumerate`d element of `timeslot_absolute`:
the slot is not occupied, both teams' rest is respected, and the daily
cap (when set) is not yet reached. -/
def feasibleSlot (schedule : List Match) (lp : String → Option Int) (rest : Int)
    (cap : Option Int) (home away : String) :
    Nat × ((Nat × String × String) × Int) → Bool
  | (idx, ((day, _, _), abs_time)) =>
    !(schedule.any fun m => m.match_id == idx) &&
    !(decide (abs_time - lpGet lp home < rest)) &&
    !(decide (abs_time - lpGet lp away < rest)) &&
    (match cap with
     | none => true
     | some c => !(decide (c ≤ ((schedule.countP fun m => m.day == day : Nat) : Int))))

/-- The `for zone, home, away, round_idx in matches_unassigned` loop:
bind each pending match to the first feasible slot, update `last_played`
for both teams, and fail (`none`, the `RuntimeError`) as soon as one
match fits nowhere.  Returns the bound list and the final `last_played`. -/
def scheduleMatches (tsAbs : List ((Nat × String × String) × Int)) (rest : Int)
    (cap : Option Int) :
    List (String × String × String × Nat) → List Match → (String → Option Int) →
    Option (List Match × (String → Option Int))
  | [], schedule, lp => some (schedule, lp)
  | (zone, home, away, round_idx) :: pending, schedule, lp =>
    match tsAbs.enum.find? (feasibleSlot schedule lp rest cap home away) with
    | none => none
    | some (idx, ((day, time_str, fieldName), abs_time)) =>
      let lp1 := fun t => if t = home then some abs_time else lp t
      let lp2 := fun t => if t = away then some abs_time else lp1 t
      scheduleMatches tsAbs rest cap pending
        (schedule ++ [⟨day, time_str, fieldName, home, away, zone, round_idx, idx⟩]) lp2

/-- The final sort key comparison, `(m.day, _time_to_minutes(m.time),
m.field)` compared lexicographically (Python tuple order).  Python's
`list.sort(key=...)` is a stable sort by this relation; a stable sort by
a total preorder has a unique possible output, so it is modelled below by
the (stable, structurally recursive) `List.insertionSort`. -/
def keyLE (a b : Match) : Prop :=
  a.day < b.day ∨ (a.day = b.day ∧
    (_time_to_minutes a.time < _time_to_minutes b.time ∨
      (_time_to_minutes a.time = _time_to_minutes b.time ∧ a.field ≤ b.field)))

instance (a b : Match) : Decidable (keyLE a b) := by
  unfold keyLE; infer_instance

instance : IsTotal Match keyLE := by
  constructor
  intro a b
  unfold keyLE
  rcases Nat.lt_trichotomy a.day b.day with h | h | h
  · exact Or.inl (Or.inl h)
  · rcases Nat.lt_trichotomy (_time_to_minutes a.time) (_time_to_minutes b.time) with
      h' | h' | h'
    · exact Or.inl (Or.inr ⟨h, Or.inl h'⟩)
    · rcases le_total a.field b.field with h'' | h''
      · exact Or.inl (Or.inr ⟨h, Or.inr ⟨h', h''⟩⟩)
      · exact Or.inr (Or.inr ⟨h.symm, Or.inr ⟨h'.symm, h''⟩⟩)
    · exact Or.inr (Or.inr ⟨h.symm, Or.inl h'⟩)
  · exact Or.inr (Or.inl h)

instance : IsTrans Match keyLE := by
  constructor
  intro a b c hab hbc
  unfold keyLE at hab hbc ⊢
  rcases hab with h1 | ⟨e1, h1⟩
  · rcases hbc with h2 | ⟨e2, h2⟩
    · exact Or.inl (h1.trans h2)
    · exact Or.inl (by omega)
  · rcases hbc with h2 | ⟨e2, h2⟩
    · exact Or.inl (by omega)
    · refine Or.inr ⟨e1.trans e2, ?_⟩
      rcases h1 with h1 | ⟨f1, h1⟩
      · rcases h2 with h2 | ⟨f2, h2⟩
        · exact Or.inl (h1.trans h2)
        · exact Or.inl (by omega)
      · rcases h2 with h2 | ⟨f2, h2⟩
        · exact Or.inl (by omega)
        · exact Or.inr ⟨f1.trans f2, le_trans h1 h2⟩

/-- The pending-match list built inside `generate_fixture` (and,
identically, by `generate_match_list`): group the zone-assigned teams by
zone in first-occurrence order (Python `dict.setdefault` grouping), and
run the round-robin generator per zone; tuples are
`(zone, home, away, round)` with rounds numbered from 1. -/
def insertZone : List (String × List Team) → Team → List (String × List Team)
  | [], t => [(t.zone, [t])]
  | (z, g) :: rest, t =>
    if z = t.zone then (z, g ++ [t]) :: rest else (z, g) :: insertZone rest t

/-- `zones.setdefault(t.zone, []).append(t)` over the whole team list:
association list keyed by zone, keys in first-occurrence order, members
in input order. -/
def groupByZone (teams : List Team) : List (String × List Team) :=
  teams.foldl insertZone []

/-- The double loop producing `matches_unassigned` from the grouped
zones. -/
def pendingMatches (zones : List (String × List Team)) (home_and_away : Bool) :
    List (String × String × String × Nat) :=
  zones.flatMap fun p =>
    (generate_round_robin (p.2.map (·.name)) home_and_away).enum.flatMap fun q =>
      q.2.map fun pr => (p.1, pr.1, pr.2, q.1 + 1)

/-- `generate_match_list(teams, system, home_and_away)`: the pending
matches without slots.  (The Python function returns dicts with keys
`zone`, `home`, `away`, `round`; modelled as tuples in that order.) -/
def generate_match_list (teams : List Team) (system : String)
    (home_and_away : Bool := false) : List (String × String × String × Nat) :=
  let teams_with_zone := assign_zones teams system
  pendingMatches (groupByZone teams_with_zone) home_and_away

/-- The pending matches produced inside `generate_fixture` (its first
three loops; textually the same computation as `generate_match_list`). -/
def pendingOf (teams : List Team) (system : String) (home_and_away : Bool) :
    List (String × String × String × Nat) :=
  pendingMatches (groupByZone (assign_zones teams system)) home_and_away

/-- `timeslot_absolute`: the timeslots sorted by their precomputed index
(`timeslots.sort(key=lambda x: x[3])`), each paired with its absolute
time `(day - 1) * 24 * 60 + _time_to_minutes(time_str)`. -/
def fixtureSlotAbs (timeslots : List Slot) : List ((Nat × String × String) × Int) :=
  (timeslots.insertionSort fun a b => a.2.2.2 ≤ b.2.2.2).map fun s =>
    ((s.1, s.2.1, s.2.2.1), slotAbs s.1 s.2.1)

/-- The final reordering: sort the bound list by
`(day, time-of-day, field)` and renumber `match_id` from 1. -/
def finalizeSchedule (schedule : List Match) : List Match :=
  (schedule.insertionSort keyLE).enum.map fun p => { p.2 with match_id := p.1 + 1 }

/-- `generate_fixture(...)`: assign zones, build the pending matches,
enumerate and sort the timeslots, greedily bind every pending match
(`none` on the `RuntimeError`), then sort the bound list by
`(day, time, field)` and renumber `match_id` from 1. -/
def generate_fixture (teams : List Team) (system : String) (days fields : Nat)
    (start_time : String := "09:00") (end_time : String := "18:00")
    (match_duration : Nat := 60) (rest : Int := 60)
    (midday_break : Option (String × String) := none)
    (home_and_away : Bool := false) (max_matches_per_day : Option Int := none) :
    Option (List Match) :=
  let matches_unassigned := pendingOf teams system home_and_away
  match _generate_timeslots days fields start_time end_time match_duration midday_break with
  | none => none
  | some timeslots =>
    match scheduleMatches (fixtureSlotAbs timeslots) rest max_matches_per_day
        matches_unassigned [] (fun _ => none) with
    | none => none
    | some (schedule, _) => some (finalizeSchedule schedule)

/-- Team `t` takes part in match `m` (as home or away side). -/
def involves (t : String) (m : Match) : Prop :=
  t = m.home ∨ t = m.away

/-- The absolute time of a bound match, recomputed from its fields the
way the scheduler does. -/
def mAbs (m : Match) : Int :=
  slotAbs m.day m.time

/-! ## Reference-level model of `generate_match_list` (frame effect)

Python `Team` objects are mutable and aliased: `generate_match_list`
passes `list(teams)` — a copy of the *list of references*, not of the
`Team` objects — to `assign_zones`, which writes `team.zone` through
those references.  To state the frame-effect claim we model the object
heap explicitly: a store `List Team` of objects, and team lists as lists
of store indices. -/

/-- Read a team object through a reference. -/
def storeGet (store : List Team) (r : Nat) : Team :=
  store.getD r ⟨"", ""⟩

/-- `team.zone = z` through reference `r`. -/
def storeSetZone (store : List Team) (r : Nat) (z : String) : List Team :=
  store.set r { storeGet store r with zone := z }

/-- `assign_zones` on the reference level: reads and writes `zone` fields
through the references; returns the updated store together with the list
(of references) it returns. -/
def assign_zones_store (store : List Team) (teams : List Nat) (system : String) :
    List Team × List Nat :=
  if (teams.map fun r => (storeGet store r).zone).all (· ≠ "") then (store, teams)
  else
    let n := teams.length
    let sys := strLower system
    if sys = "8x3" ∧ n = 24 then
      (teams.enum.foldl (fun st p =>
        storeSetZone st p.2 ((zoneLabels (n / 3)).getD (p.1 / 3) "")) store, teams)
    else if sys = "4x6" ∧ n = 24 then
      (teams.enum.foldl (fun st p =>
        storeSetZone st p.2 ((zoneLabels (n / 6)).getD (p.1 / 6) "")) store, teams)
    else (teams.foldl (fun st r => storeSetZone st r "A") store, teams)

/-- `generate_match_list` on the reference level.  `list(teams)` copies
only the list of references, so the same reference list is handed to
`assign_zones_store`; the returned store records the writes that remain
visible to the caller. -/
def generate_match_list_store (store : List Team) (teams : List Nat) (system : String)
    (home_and_away : Bool := false) :
    List Team × List (String × String × String × Nat) :=
  let res := assign_zones_store store teams system
  let teams_with_zone := res.2.map fun r => storeGet res.1 r
  (res.1, pendingMatches (groupByZone teams_with_zone) home_and_away)

/-! ## Lemmas: decimal strings

`Nat.repr` produces the digits of `decDigits`; evaluating the digit
string recovers the number, so decimal rendering is injective and its
characters are decimal digits (in particular never `':'`). -/

theorem string_data_inj {s t : String} (h : s.data = t.data) : s = t := by
  cases s
  cases t
  exact congrArg String.mk h

theorem toDigitsCore_eq_decDigits :
    ∀ (fuel n : Nat) (ds : List Char), n < fuel →
      Nat.toDigitsCore 10 fuel n ds = decDigits n ++ ds := by
  intro fuel
  induction fuel with
  | zero => intro n ds h; omega
  | succ fuel ih =>
    intro n ds h
    show (if n / 10 = 0 then Nat.digitChar (n % 10) :: ds
      else Nat.toDigitsCore 10 fuel (n / 10) (Nat.digitChar (n % 10) :: ds)) =
        decDigits n ++ ds
    by_cases h10 : n / 10 = 0
    · have hn : n < 10 := by omega
      rw [if_pos h10, decDigits, dif_pos hn, Nat.mod_eq_of_lt hn]
      rfl
    · have hn : ¬ n < 10 := by omega
      have hlt : n / 10 < fuel := by omega
      rw [if_neg h10, ih (n / 10) _ hlt]
      conv_rhs => rw [decDigits]
      rw [dif_neg hn, List.append_assoc]
      rfl

theorem repr_eq_decDigits (n : Nat) : Nat.repr n = (decDigits n).asString := by
  unfold Nat.repr Nat.toDigits
  rw [toDigitsCore_eq_decDigits (n + 1) n [] (Nat.lt_succ_self n), List.append_nil]

theorem strToNatDigits_append_singleton (l : List Char) (c : Char) :
    strToNatDigits (l ++ [c]) = 10 * strToNatDigits l + (c.toNat - 48) := by
  unfold strToNatDigits
  rw [List.foldl_append]
  rfl

theorem digitChar_toNat_sub (k : Nat) (h : k < 10) : (Nat.digitChar k).toNat - 48 = k := by
  interval_cases k <;> decide

theorem strToNatDigits_decDigits (n : Nat) : strToNatDigits (decDigits n) = n := by
  induction n using Nat.strong_induction_on with
  | _ n ih =>
    by_cases h : n < 10
    · rw [decDigits, dif_pos h]
      show 10 * 0 + ((Nat.digitChar n).toNat - 48) = n
      rw [digitChar_toNat_sub n h]
      omega
    · rw [decDigits, dif_neg h, strToNatDigits_append_singleton,
        ih (n / 10) (Nat.div_lt_self (by omega) (by omega)),
        digitChar_toNat_sub (n % 10) (Nat.mod_lt n (by omega))]
      omega

theorem decDigits_injective : Function.Injective decDigits := by
  intro a b h
  have := strToNatDigits_decDigits a
  rw [h, strToNatDigits_decDigits] at this
  omega

theorem repr_injective : Function.Injective Nat.repr := by
  intro a b h
  rw [repr_eq_decDigits, repr_eq_decDigits, List.asString_inj] at h
  exact decDigits_injective h

theorem decDigits_ne_nil (n : Nat) : decDigits n ≠ [] := by
  rw [decDigits]
  by_cases h : n < 10
  · rw [dif_pos h]; simp
  · rw [dif_neg h]; simp

theorem mem_decDigits_isDigit {n : Nat} {c : Char} (h : c ∈ decDigits n) :
    ∃ k, k < 10 ∧ c = Nat.digitChar k := by
  induction n using Nat.strong_induction_on with
  | _ n ih =>
    by_cases h10 : n < 10
    · rw [decDigits, dif_pos h10] at h
      rcases List.mem_singleton.mp h with rfl
      exact ⟨n, h10, rfl⟩
    · rw [decDigits, dif_neg h10] at h
      rcases List.mem_append.mp h with h' | h'
      · exact ih (n / 10) (Nat.div_lt_self (by omega) (by omega)) h'
      · rcases List.mem_singleton.mp h' with rfl
        exact ⟨n % 10, Nat.mod_lt n (by omega), rfl⟩

theorem colon_not_mem_decDigits (n : Nat) : ':' ∉ decDigits n := by
  intro h
  rcases mem_decDigits_isDigit h with ⟨k, hk, he⟩
  revert he
  interval_cases k <;> decide

theorem decDigits_head_ne_zero (n : Nat) (hn : 1 ≤ n) :
    ∀ rest, decDigits n ≠ '0' :: rest := by
  induction n using Nat.strong_induction_on with
  | _ n ih =>
    intro rest h
    by_cases h10 : n < 10
    · rw [decDigits, dif_pos h10] at h
      have hd : Nat.digitChar n = '0' := ((List.cons.injEq _ _ _ _).mp h).1
      interval_cases n <;> exact absurd hd (by decide)
    · rw [decDigits, dif_neg h10] at h
      rcases hne : decDigits (n / 10) with _ | ⟨d, ds⟩
      · exact decDigits_ne_nil _ hne
      · rw [hne] at h
        have hd : d = '0' := ((List.cons.injEq _ _ _ _).mp h).1
        have hdiv : 1 ≤ n / 10 := by omega
        exact ih (n / 10) (by omega) hdiv ds (by rw [hne, hd])

/-! ### `pad2` and time-string lemmas -/

theorem pad2_data (n : Nat) :
    (pad2 n).data = if n < 10 then '0' :: decDigits n else decDigits n := by
  unfold pad2
  by_cases h : n < 10
  · rw [if_pos h, if_pos h, String.data_append, repr_eq_decDigits]
    rfl
  · rw [if_neg h, if_neg h, repr_eq_decDigits]
    rfl

theorem colon_not_mem_pad2 (n : Nat) : ':' ∉ (pad2 n).data := by
  rw [pad2_data]
  by_cases h : n < 10
  · rw [if_pos h]
    intro hmem
    rcases List.mem_cons.mp hmem with h' | h'
    · exact absurd h' (by decide)
    · exact colon_not_mem_decDigits n h'
  · rw [if_neg h]; exact colon_not_mem_decDigits n

theorem pad2_injective : Function.Injective pad2 := by
  intro a b h
  have hdata : (pad2 a).data = (pad2 b).data := by rw [h]
  rw [pad2_data, pad2_data] at hdata
  by_cases ha : a < 10 <;> by_cases hb : b < 10
  · rw [if_pos ha, if_pos hb] at hdata
    exact decDigits_injective (List.tail_eq_of_cons_eq hdata)
  · rw [if_pos ha, if_neg hb] at hdata
    exact absurd hdata.symm (decDigits_head_ne_zero b (by omega) _)
  · rw [if_neg ha, if_pos hb] at hdata
    exact absurd hdata (decDigits_head_ne_zero a (by omega) _)
  · rw [if_neg ha, if_neg hb] at hdata
    exact decDigits_injective hdata

theorem append_colon_inj {A B C D : List Char} (hA : ':' ∉ A) (hC : ':' ∉ C)
    (h : A ++ ':' :: B = C ++ ':' :: D) : A = C ∧ B = D := by
  induction A generalizing C with
  | nil =>
    cases C with
    | nil => simpa using h
    | cons c C' =>
      simp only [List.nil_append, List.cons_append, List.cons.injEq] at h
      exact absurd (h.1 ▸ List.mem_cons_self c C') hC
  | cons a A' ih =>
    cases C with
    | nil =>
      simp only [List.cons_append, List.nil_append, List.cons.injEq] at h
      exact absurd (h.1 ▸ List.mem_cons_self a A') hA
    | cons c C' =>
      simp only [List.cons_append, List.cons.injEq] at h
      rcases h with ⟨rfl, h2⟩
      have := ih (fun hm => hA (List.mem_cons_of_mem _ hm))
        (fun hm => hC (List.mem_cons_of_mem _ hm)) h2
      exact ⟨by rw [this.1], this.2⟩

theorem minutes_to_time_data (x : Nat) :
    (_minutes_to_time x).data = (pad2 (x / 60)).data ++ ':' :: (pad2 (x % 60)).data := by
  unfold _minutes_to_time
  rw [String.data_append, String.data_append]
  simp

theorem minutes_to_time_injective : Function.Injective _minutes_to_time := by
  intro x y h
  have hdata : (_minutes_to_time x).data = (_minutes_to_time y).data := by rw [h]
  rw [minutes_to_time_data, minutes_to_time_data] at hdata
  rcases append_colon_inj (colon_not_mem_pad2 _) (colon_not_mem_pad2 _) hdata with ⟨h1, h2⟩
  have e1 : x / 60 = y / 60 := pad2_injective (string_data_inj h1)
  have e2 : x % 60 = y % 60 := pad2_injective (string_data_inj h2)
  omega

theorem splitOnChar_ne_nil (c : Char) : ∀ B, splitOnChar c B ≠ [] := by
  intro B
  induction B with
  | nil => simp [splitOnChar]
  | cons b B' ih =>
    rcases hs : splitOnChar c B' with _ | ⟨g, gs⟩
    · exact absurd hs ih
    · rw [splitOnChar, hs]
      by_cases hb : b = c <;> simp [hb]

theorem splitOnChar_not_mem {c : Char} : ∀ {B : List Char}, c ∉ B → splitOnChar c B = [B] := by
  intro B
  induction B with
  | nil => intro _; rfl
  | cons b B' ih =>
    intro h
    have hb : b ≠ c := fun he => h (he ▸ List.mem_cons_self b B')
    rw [splitOnChar, ih (fun hm => h (List.mem_cons_of_mem _ hm))]
    simp [hb]

theorem splitOnChar_append {c : Char} {A B : List Char} (hA : c ∉ A) :
    splitOnChar c (A ++ c :: B) = A :: splitOnChar c B := by
  induction A with
  | nil =>
    rcases hs : splitOnChar c B with _ | ⟨g, gs⟩
    · exact absurd hs (splitOnChar_ne_nil c B)
    · rw [List.nil_append, splitOnChar, hs]
      simp
  | cons a A' ih =>
    have ha : a ≠ c := fun he => hA (he ▸ List.mem_cons_self a A')
    rw [List.cons_append, splitOnChar, ih (fun hm => hA (List.mem_cons_of_mem _ hm))]
    simp [ha]

theorem strToNatDigits_pad2 (n : Nat) : strToNatDigits (pad2 n).data = n := by
  rw [pad2_data]
  by_cases h : n < 10
  · rw [if_pos h]
    show List.foldl _ (10 * 0 + ('0'.toNat - 48)) (decDigits n) = n
    have : (10 * 0 + ('0'.toNat - 48)) = 0 := by decide
    rw [this]
    exact strToNatDigits_decDigits n
  · rw [if_neg h]
    exact strToNatDigits_decDigits n

/-- Round trip: parsing an emitted time string recovers the minute count.
This is how `generate_fixture` recomputes absolute times from slot
strings. -/
theorem time_to_minutes_minutes_to_time (x : Nat) :
    _time_to_minutes (_minutes_to_time x) = x := by
  unfold _time_to_minutes
  rw [minutes_to_time_data,
    splitOnChar_append (colon_not_mem_pad2 _),
    splitOnChar_not_mem (colon_not_mem_pad2 _)]
  show strToNatDigits (pad2 (x / 60)).data * 60 + strToNatDigits (pad2 (x % 60)).data = x
  rw [strToNatDigits_pad2, strToNatDigits_pad2]
  omega

/-- Field names `"c" ++ str(k)` are injective in `k`. -/
theorem fieldName_injective (a b : Nat) (h : "c" ++ Nat.repr a = "c" ++ Nat.repr b) :
    a = b := by
  apply repr_injective
  apply string_data_inj
  have : ("c" ++ Nat.repr a).data = ("c" ++ Nat.repr b).data := by rw [h]
  rw [String.data_append, String.data_append] at this
  exact List.append_cancel_left this

/-! ## Lemmas: zone assignment -/

theorem singleton_ne_empty (c : Char) : String.singleton c ≠ "" := by
  intro h
  have hd := congrArg String.data h
  simp only [String.singleton, String.push] at hd
  exact absurd hd (by simp)

theorem zoneLabels_getD {count j : Nat} (hj : j < count) :
    (zoneLabels count).getD j "" = String.singleton (Char.ofNat ('A'.toNat + j)) := by
  unfold zoneLabels
  rw [List.getD_eq_getElem _ _ (by simpa using hj)]
  simp

theorem setZonesBySize_zone_ne_empty (teams : List Team) (g : Nat)
    (hdvd : teams.length % g = 0) :
    ∀ t ∈ setZonesBySize teams g, t.zone ≠ "" := by
  intro t ht
  unfold setZonesBySize at ht
  simp only [List.mem_map] at ht
  obtain ⟨p, hp, rfl⟩ := ht
  have hg := List.mem_enum_iff_getElem?.mp hp
  have hp1 : p.1 < teams.length := by
    by_contra hc
    rw [List.getElem?_eq_none (by omega)] at hg
    exact Option.noConfusion hg
  have hj : p.1 / g < teams.length / g := Nat.div_lt_div_of_lt_of_dvd (Nat.dvd_of_mod_eq_zero hdvd) hp1
  simp only []
  rw [zoneLabels_getD hj]
  exact singleton_ne_empty _

theorem assign_zones_all_nonempty (teams : List Team) (system : String) :
    (assign_zones teams system).all (fun t => t.zone ≠ "") = true := by
  unfold assign_zones
  by_cases h : teams.all (fun t => t.zone ≠ "") = true
  · rw [if_pos h]; exact h
  · rw [if_neg h]
    by_cases h8 : strLower system = "8x3" ∧ teams.length = 24
    · rw [if_pos h8]
      exact List.all_eq_true.mpr fun t ht => decide_eq_true
        (setZonesBySize_zone_ne_empty teams 3 (by omega) t ht)
    · rw [if_neg h8]
      by_cases h4 : strLower system = "4x6" ∧ teams.length = 24
      · rw [if_pos h4]
        exact List.all_eq_true.mpr fun t ht => decide_eq_true
          (setZonesBySize_zone_ne_empty teams 6 (by omega) t ht)
      · rw [if_neg h4]
        refine List.all_eq_true.mpr fun t ht => ?_
        simp only [List.mem_map] at ht
        obtain ⟨u, _, rfl⟩ := ht
        simp

/-- C9: for every team list and system code, `assign_zones` is
idempotent: a second application returns the first application's result
unchanged (after the first pass every team's zone is non-empty, so the
second pass takes the no-op branch). -/
theorem assign_zones_idempotent (teams : List Team) (system : String) :
    assign_zones (assign_zones teams system) system = assign_zones teams system := by
  conv_lhs => rw [assign_zones]
  rw [if_pos (assign_zones_all_nonempty teams system)]

/-! ## C10: `generate_match_list` mutates the caller's `Team` objects -/

/-- C10: on the reference-level model, the caller's store holds a team
whose `zone` is empty before the call; `generate_match_list` passes a
copy of the reference list (not of the objects), and after the call the
very same store cell carries zone `"A"`.  The frame effect is visible to
the caller. -/
theorem generate_match_list_store_mutates :
    (storeGet [⟨"X", ""⟩, ⟨"Y", ""⟩] 0).zone = "" ∧
    (storeGet (generate_match_list_store [⟨"X", ""⟩, ⟨"Y", ""⟩] [0, 1] "rr" false).1 0).zone
      = "A" ∧
    (generate_match_list_store [⟨"X", ""⟩, ⟨"Y", ""⟩] [0, 1] "rr" false).2
      = [("A", "X", "Y", 1)] := by
  refine ⟨rfl, ?_, ?_⟩ <;> decide

/-! ## C7: the "never played" sentinel -/

/-- C7's claim is false as stated: the code uses the finite sentinel
`-1_000_000`, not `−infinity`.  With `rest = 1_100_000 ≥ 0`, a completely
fresh pair of teams is rejected by the rest test even on a free slot with
no daily cap: `feasibleSlot` returns `false` although the slot is
unoccupied and neither team has ever played. -/
theorem feasibleSlot_rejects_never_played :
    feasibleSlot [] (fun _ => none) 1100000 none "a" "b"
      (0, ((1, "09:00", "c1"), slotAbs 1 "09:00")) = false := by
  decide

/-- C7 (amended): for `0 ≤ rest ≤ 1_000_000`, the rest condition never
rejects a slot on account of a team that has not yet played: the slot's
absolute time minus the team's recorded last time (the `-1_000_000`
sentinel) is always at least `rest`. -/
theorem rest_ok_of_never_played (lp : String → Option Int) (t : String)
    (hnp : lp t = none) (rest : Int) (h0 : 0 ≤ rest) (hb : rest ≤ 1000000)
    (day : Nat) (time : String) (hday : 1 ≤ day) :
    rest ≤ slotAbs day time - lpGet lp t := by
  unfold lpGet slotAbs
  rw [hnp]
  have h1 : (0 : Int) ≤ ((day : Int) - 1) * 24 * 60 := by
    have hd : (1 : Int) ≤ (day : Int) := by exact_mod_cast hday
    have : (0 : Int) ≤ ((day : Int) - 1) := by omega
    positivity
  have h2 : (0 : Int) ≤ (_time_to_minutes time : Int) := Int.natCast_nonneg _
  simp only [Option.getD_none]
  omega

/-- Witness for the amended C7 at a concrete instance. -/
theorem rest_ok_of_never_played_witness :
    ((fun _ : String => (none : Option Int)) "a" = none ∧ (0 : Int) ≤ 60 ∧
      (60 : Int) ≤ 1000000 ∧ 1 ≤ 1) ∧
    (60 : Int) ≤ slotAbs 1 "09:00" - lpGet (fun _ => none) "a" :=
  ⟨⟨rfl, by decide, by decide, le_refl 1⟩,
    rest_ok_of_never_played (fun _ => none) "a" rfl 60 (by decide) (by decide) 1 "09:00"
      (le_refl 1)⟩

/-! ## Lemmas: the scheduling loop -/

theorem scheduleMatches_append (tsAbs : List ((Nat × String × String) × Int)) (rest : Int)
    (cap : Option Int) (pre post : List (String × String × String × Nat))
    (sched : List Match) (lp : String → Option Int) :
    scheduleMatches tsAbs rest cap (pre ++ post) sched lp =
      match scheduleMatches tsAbs rest cap pre sched lp with
      | none => none
      | some (s, l) => scheduleMatches tsAbs rest cap post s l := by
  induction pre generalizing sched lp with
  | nil => rfl
  | cons m pre ih =>
    obtain ⟨zone, home, away, rnd⟩ := m
    rw [List.cons_append]
    simp only [scheduleMatches]
    cases hfind : tsAbs.enum.find? (feasibleSlot sched lp rest cap home away) with
    | none => rfl
    | some s =>
      obtain ⟨idx, ⟨⟨day, time, f⟩, abs⟩⟩ := s
      exact ih _ _

/-- C2: whenever, at some point of the greedy loop, the pending match at
hand has no feasible slot (the candidate scan `find?` comes back empty:
every slot is occupied, rest-violating, or capped), the whole of
`generate_fixture` evaluates to `none` — the model of the raised
`RuntimeError` — and in particular no partial schedule value is
produced. -/
theorem generate_fixture_none_of_unplaceable (teams : List Team) (system : String)
    (days fields : Nat) (start_time end_time : String) (match_duration : Nat) (rest : Int)
    (midday_break : Option (String × String)) (home_and_away : Bool)
    (max_matches_per_day : Option Int) (ts : List Slot)
    (hts : _generate_timeslots days fields start_time end_time match_duration midday_break
      = some ts)
    (pre post : List (String × String × String × Nat)) (zone home away : String) (rnd : Nat)
    (hsplit : pendingOf teams system home_and_away = pre ++ (zone, home, away, rnd) :: post)
    (sched : List Match) (lp : String → Option Int)
    (hpre : scheduleMatches (fixtureSlotAbs ts) rest max_matches_per_day pre []
      (fun _ => none) = some (sched, lp))
    (hfail : (fixtureSlotAbs ts).enum.find?
      (feasibleSlot sched lp rest max_matches_per_day home away) = none) :
    generate_fixture teams system days fields start_time end_time match_duration rest
      midday_break home_and_away max_matches_per_day = none := by
  unfold generate_fixture
  rw [hts]
  simp only [hsplit, scheduleMatches_append, hpre, scheduleMatches, hfail]

/-- Witness for C2: two teams, home-and-away, but a single one-slot day;
the second pending match finds every slot occupied and the whole run
fails with no schedule. -/
theorem generate_fixture_none_of_unplaceable_witness :
    (_generate_timeslots 1 1 "09:00" "10:00" 60 none = some [(1, "09:00", "c1", 0)] ∧
      pendingOf [⟨"a", ""⟩, ⟨"b", ""⟩] "rr" true
        = [("A", "a", "b", 1)] ++ ("A", "b", "a", 2) :: [] ∧
      scheduleMatches (fixtureSlotAbs [(1, "09:00", "c1", 0)]) 60 none [("A", "a", "b", 1)]
        [] (fun _ => none)
        = some ([⟨1, "09:00", "c1", "a", "b", "A", 1, 0⟩],
            fun t => if t = "b" then some 540 else if t = "a" then some 540 else none) ∧
      (fixtureSlotAbs [(1, "09:00", "c1", 0)]).enum.find?
        (feasibleSlot [⟨1, "09:00", "c1", "a", "b", "A", 1, 0⟩]
          (fun t => if t = "b" then some 540 else if t = "a" then some 540 else none)
          60 none "b" "a") = none) ∧
    generate_fixture [⟨"a", ""⟩, ⟨"b", ""⟩] "rr" 1 1 "09:00" "10:00" 60 60 none true none
      = none := by
  refine ⟨⟨by decide, by decide, ?_, by decide⟩, ?_⟩
  · rfl
  · exact generate_fixture_none_of_unplaceable [⟨"a", ""⟩, ⟨"b", ""⟩] "rr" 1 1 "09:00"
      "10:00" 60 60 none true none [(1, "09:00", "c1", 0)] (by decide)
      [("A", "a", "b", 1)] [] "A" "b" "a" 2 (by decide)
      [⟨1, "09:00", "c1", "a", "b", "A", 1, 0⟩]
      (fun t => if t = "b" then some 540 else if t = "a" then some 540 else none)
      (by rfl) (by decide)

/-! ## Lemmas: timeslot enumeration -/

theorem inBreak_lt_jump {brk : Option (Nat × Nat)} {current : Nat}
    (h : inBreak brk current = true) : current < breakJump brk := by
  cases brk with
  | none => simp [inBreak] at h
  | some p =>
    obtain ⟨bs, be⟩ := p
    simp only [inBreak, Bool.and_eq_true, decide_eq_true_eq] at h
    simpa [breakJump] using h.2

/-- Index bookkeeping of one day's loop: indices are consecutive from the
incoming counter, the final counter accounts for every emitted slot, and
all slots carry the loop's day. -/
theorem slotDayLoop_indices (endMin dur : Nat) (brk : Option (Nat × Nat)) (flds day : Nat) :
    ∀ (fuel current index : Nat) (l : List Slot) (index' : Nat),
      slotDayLoop endMin dur brk flds day fuel current index = some (l, index') →
      index' = index + l.length ∧ l.map (·.2.2.2) = List.range' index l.length ∧
        ∀ s ∈ l, s.1 = day := by
  intro fuel
  induction fuel with
  | zero => intro current index l index' h; exact absurd h (by simp [slotDayLoop])
  | succ fuel ih =>
    intro current index l index' h
    rw [slotDayLoop] at h
    by_cases hin : current + dur ≤ endMin
    · rw [if_pos hin] at h
      by_cases hbr : inBreak brk current
      · rw [if_pos hbr] at h
        exact ih _ _ _ _ h
      · rw [if_neg hbr] at h
        cases hrec : slotDayLoop endMin dur brk flds day fuel (current + dur) (index + flds)
          with
        | none => rw [hrec] at h; exact absurd h (by simp)
        | some res =>
          obtain ⟨l₂, index₂⟩ := res
          rw [hrec] at h
          simp only [Option.some.injEq, Prod.mk.injEq] at h
          obtain ⟨hl, hidx⟩ := h
          obtain ⟨e1, e2, e3⟩ := ih _ _ _ _ hrec
          subst hl hidx
          refine ⟨by
            rw [List.length_append, List.length_map, List.length_range]
            omega, ?_, ?_⟩
          · rw [List.map_append, e2, List.map_map]
            have hm : ((List.range flds).map
                ((fun s : Slot => s.2.2.2) ∘ fun k =>
                  (day, _minutes_to_time current, "c" ++ Nat.repr (k + 1), index + k)))
                = List.range' index flds := by
              rw [List.range'_eq_map_range]
              exact List.map_congr_left fun k _ => by simp [Nat.add_comm]
            rw [hm, List.length_append, List.length_map, List.length_range,
              Nat.add_comm flds l₂.length]
            exact List.range'_append_1 index flds l₂.length
          · intro s hs
            rcases List.mem_append.mp hs with hs | hs
            · obtain ⟨k, _, rfl⟩ := List.mem_map.mp hs
              rfl
            · exact e3 s hs
    · rw [if_neg hin] at h
      simp only [Option.some.injEq, Prod.mk.injEq] at h
      obtain ⟨hl, hidx⟩ := h
      subst hl hidx
      exact ⟨by simp, by simp, by simp⟩

/-- With `match_duration = 0` an in-window, out-of-break `current` makes
the Python loop spin forever: the fuel model returns `none`. -/
theorem slotDayLoop_zero_dur_none (endMin : Nat) (brk : Option (Nat × Nat)) (flds day : Nat) :
    ∀ (fuel current index : Nat), current ≤ endMin → inBreak brk current = false →
      slotDayLoop endMin 0 brk flds day fuel current index = none := by
  intro fuel
  induction fuel with
  | zero => intro current index _ _; rfl
  | succ fuel ih =>
    intro current index hle hbr
    rw [slotDayLoop, if_pos (by omega), if_neg (by rw [hbr]; exact Bool.false_ne_true)]
    simp only [Nat.add_zero]
    rw [ih current (index + flds) hle hbr]

/-- With `match_duration = 0` a *successful* day loop emitted nothing. -/
theorem slotDayLoop_zero_dur_nil (endMin : Nat) (brk : Option (Nat × Nat)) (flds day : Nat) :
    ∀ (fuel current index : Nat) (l : List Slot) (index' : Nat),
      slotDayLoop endMin 0 brk flds day fuel current index = some (l, index') → l = [] := by
  intro fuel
  induction fuel with
  | zero => intro current index l index' h; exact absurd h (by simp [slotDayLoop])
  | succ fuel ih =>
    intro current index l index' h
    rw [slotDayLoop] at h
    by_cases hin : current + 0 ≤ endMin
    · rw [if_pos hin] at h
      by_cases hbr : inBreak brk current
      · rw [if_pos hbr] at h
        exact ih _ _ _ _ h
      · rw [if_neg hbr] at h
        rw [slotDayLoop_zero_dur_none endMin brk flds day fuel (current + 0) (index + flds)
          (by omega) (Bool.eq_false_iff.mpr (by simpa using hbr))] at h
        exact absurd h (by simp)
    · rw [if_neg hin] at h
      simp only [Option.some.injEq, Prod.mk.injEq] at h
      exact h.1.symm

/-- Shape of a successful day's slots, `match_duration ≥ 1`: every slot's
time renders a minute count in `[current, endMin - dur]` and its field is
one of `"c1" … "c{fields}"`; and no two slots of the day share
`(time, field)`. -/
theorem slotDayLoop_sound (endMin dur : Nat) (brk : Option (Nat × Nat)) (flds day : Nat)
    (hdur : 1 ≤ dur) :
    ∀ (fuel current index : Nat) (l : List Slot) (index' : Nat),
      slotDayLoop endMin dur brk flds day fuel current index = some (l, index') →
      (∀ s ∈ l, ∃ c, current ≤ c ∧ c + dur ≤ endMin ∧ s.2.1 = _minutes_to_time c ∧
        ∃ k, k < flds ∧ s.2.2.1 = "c" ++ Nat.repr (k + 1)) ∧
      l.Pairwise (fun s s' => s.2.1 ≠ s'.2.1 ∨ s.2.2.1 ≠ s'.2.2.1) := by
  intro fuel
  induction fuel with
  | zero => intro current index l index' h; exact absurd h (by simp [slotDayLoop])
  | succ fuel ih =>
    intro current index l index' h
    rw [slotDayLoop] at h
    by_cases hin : current + dur ≤ endMin
    · rw [if_pos hin] at h
      by_cases hbr : inBreak brk current
      · rw [if_pos hbr] at h
        obtain ⟨h1, h2⟩ := ih _ _ _ _ h
        refine ⟨fun s hs => ?_, h2⟩
        obtain ⟨c, hc1, hc2, hc3⟩ := h1 s hs
        have := inBreak_lt_jump hbr
        exact ⟨c, by omega, hc2, hc3⟩
      · rw [if_neg hbr] at h
        cases hrec : slotDayLoop endMin dur brk flds day fuel (current + dur) (index + flds)
          with
        | none => rw [hrec] at h; exact absurd h (by simp)
        | some res =>
          obtain ⟨l₂, index₂⟩ := res
          rw [hrec] at h
          simp only [Option.some.injEq, Prod.mk.injEq] at h
          obtain ⟨hl, _⟩ := h
          subst hl
          obtain ⟨h1, h2⟩ := ih _ _ _ _ hrec
          constructor
          · intro s hs
            rcases List.mem_append.mp hs with hs | hs
            · obtain ⟨k, hk, rfl⟩ := List.mem_map.mp hs
              exact ⟨current, le_refl _, hin, rfl, k, List.mem_range.mp hk, rfl⟩
            · obtain ⟨c, hc1, hc2, hc3⟩ := h1 s hs
              exact ⟨c, by omega, hc2, hc3⟩
          · rw [List.pairwise_append]
            refine ⟨?_, h2, ?_⟩
            · rw [List.pairwise_map]
              refine List.Pairwise.imp ?_ (List.sorted_lt_range flds)
              intro k k' hkk'
              right
              intro he
              exact absurd (fieldName_injective _ _ he) (by omega)
            · intro s hs s' hs'
              obtain ⟨k, _, rfl⟩ := List.mem_map.mp hs
              obtain ⟨c, hc1, hc2, hc3, _⟩ := h1 s' hs'
              left
              show _minutes_to_time current ≠ s'.2.1
              rw [hc3]
              intro he
              have := minutes_to_time_injective he
              omega
    · rw [if_neg hin] at h
      simp only [Option.some.injEq, Prod.mk.injEq] at h
      obtain ⟨hl, _⟩ := h
      subst hl
      exact ⟨by simp, by simp⟩

/-- A successful day loop, any duration: all slots carry the day, no two
share `(time, field)`. -/
theorem slotDayLoop_day_distinct (endMin dur : Nat) (brk : Option (Nat × Nat))
    (flds day fuel current index : Nat) (l : List Slot) (index' : Nat)
    (h : slotDayLoop endMin dur brk flds day fuel current index = some (l, index')) :
    (∀ s ∈ l, s.1 = day) ∧
      l.Pairwise (fun s s' => s.2.1 ≠ s'.2.1 ∨ s.2.2.1 ≠ s'.2.2.1) := by
  refine ⟨(slotDayLoop_indices endMin dur brk flds day fuel current index l index' h).2.2, ?_⟩
  rcases Nat.eq_zero_or_pos dur with hz | hpos
  · subst hz
    rw [slotDayLoop_zero_dur_nil endMin brk flds day fuel current index l index' h]
    exact List.Pairwise.nil
  · exact (slotDayLoop_sound endMin dur brk flds day hpos fuel current index l index' h).2

/-- Every slot produced by the multi-day loop carries one of its days. -/
theorem slotDays_days (endMin startMin dur : Nat) (brk : Option (Nat × Nat)) (flds : Nat) :
    ∀ (dayList : List Nat) (index : Nat) (L : List Slot),
      slotDays endMin startMin dur brk flds dayList index = some L →
      ∀ s ∈ L, s.1 ∈ dayList := by
  intro dayList
  induction dayList with
  | nil =>
    intro index L h s hs
    simp only [slotDays, Option.some.injEq] at h
    subst h
    simp at hs
  | cons d ds ih =>
    intro index L h s hs
    rw [slotDays] at h
    cases hday : slotDayLoop endMin dur brk flds d (endMin + 1) startMin index with
    | none => rw [hday] at h; exact absurd h (by simp)
    | some res =>
      obtain ⟨l, index₁⟩ := res
      rw [hday] at h
      simp only [Option.some.injEq] at h
      cases hrest : slotDays endMin startMin dur brk flds ds index₁ with
      | none => rw [hrest] at h; exact absurd h (by simp)
      | some L₂ =>
        rw [hrest] at h
        simp only [Option.some.injEq] at h
        subst h
        rcases List.mem_append.mp hs with hsl | hsl
        · have hd := (slotDayLoop_indices endMin dur brk flds d (endMin + 1) startMin index l
            index₁ hday).2.2 s hsl
          rw [hd]
          exact List.mem_cons_self d ds
        · exact List.mem_cons_of_mem d (ih index₁ L₂ hrest s hsl)

/-- The multi-day loop: indices stay consecutive, every slot's day is one
of the loop's days, and (for pairwise-distinct days) no two slots share
`(day, time, field)`. -/
theorem slotDays_sound (endMin startMin dur : Nat) (brk : Option (Nat × Nat)) (flds : Nat) :
    ∀ (dayList : List Nat) (index : Nat) (L : List Slot),
      dayList.Pairwise (· ≠ ·) →
      slotDays endMin startMin dur brk flds dayList index = some L →
      L.map (·.2.2.2) = List.range' index L.length ∧
        L.Pairwise (fun s s' =>
          ¬(s.1 = s'.1 ∧ s.2.1 = s'.2.1 ∧ s.2.2.1 = s'.2.2.1)) := by
  intro dayList
  induction dayList with
  | nil =>
    intro index L _ h
    simp only [slotDays, Option.some.injEq] at h
    subst h
    exact ⟨by simp, List.Pairwise.nil⟩
  | cons d ds ih =>
    intro index L hnd h
    rw [slotDays] at h
    cases hday : slotDayLoop endMin dur brk flds d (endMin + 1) startMin index with
    | none => rw [hday] at h; exact absurd h (by simp)
    | some res =>
      obtain ⟨l, index₁⟩ := res
      rw [hday] at h
      simp only [Option.some.injEq] at h
      cases hrest : slotDays endMin startMin dur brk flds ds index₁ with
      | none => rw [hrest] at h; exact absurd h (by simp)
      | some L₂ =>
        rw [hrest] at h
        simp only [Option.some.injEq] at h
        subst h
        obtain ⟨hidx, hmap, hdays⟩ :=
          slotDayLoop_indices endMin dur brk flds d (endMin + 1) startMin index l index₁ hday
        obtain ⟨hmap₂, hpw₂⟩ := ih index₁ L₂ (List.Pairwise.sublist (by simp) hnd) hrest
        have hdays₂ : ∀ s ∈ L₂, s.1 ∈ ds := by
          intro s hs
          subst hidx
          exact slotDays_days endMin startMin dur brk flds ds (index + l.length) L₂ hrest s hs
        constructor
        · rw [List.map_append, hmap, hmap₂, hidx, List.length_append,
            Nat.add_comm l.length L₂.length]
          exact List.range'_append_1 index l.length L₂.length
        · rw [List.pairwise_append]
          refine ⟨?_, hpw₂, ?_⟩
          · refine List.Pairwise.imp ?_
              (slotDayLoop_day_distinct endMin dur brk flds d (endMin + 1) startMin index l
                index₁ hday).2
            intro s s' hss' hcon
            rcases hss' with hne | hne <;> exact hne (by tauto)
          · intro s hs s' hs' hcon
            have h1 : s.1 = d := hdays s hs
            have h2 : s'.1 ∈ ds := hdays₂ s' hs'
            have hd : d ≠ s'.1 := (List.pairwise_cons.mp hnd).1 s'.1 h2
            exact hd (by rw [← hcon.1, h1])

/-- Fuel sufficiency: with `match_duration ≥ 1` every iteration strictly
advances `current`, so fuel `end_min + 1` never runs out. -/
theorem slotDayLoop_total (endMin dur : Nat) (brk : Option (Nat × Nat)) (flds day : Nat)
    (hdur : 1 ≤ dur) :
    ∀ (fuel current index : Nat), endMin + 1 ≤ fuel + current → 1 ≤ fuel →
      ∃ res, slotDayLoop endMin dur brk flds day fuel current index = some res := by
  intro fuel
  induction fuel with
  | zero => intro current index _ h1; omega
  | succ fuel ih =>
    intro current index hf _
    rw [slotDayLoop]
    by_cases hin : current + dur ≤ endMin
    · rw [if_pos hin]
      by_cases hbr : inBreak brk current
      · rw [if_pos hbr]
        exact ih (breakJump brk) index (by have := inBreak_lt_jump hbr; omega) (by omega)
      · rw [if_neg hbr]
        obtain ⟨⟨l₂, i₂⟩, hres⟩ := ih (current + dur) (index + flds) (by omega) (by omega)
        rw [hres]
        exact ⟨_, rfl⟩
    · rw [if_neg hin]
      exact ⟨_, rfl⟩

theorem slotDays_cons_eq (endMin startMin dur : Nat) (brk : Option (Nat × Nat))
    (flds d : Nat) (ds : List Nat) (index i₁ : Nat) (l : List Slot) (L₂ : List Slot)
    (h1 : slotDayLoop endMin dur brk flds d (endMin + 1) startMin index = some (l, i₁))
    (h2 : slotDays endMin startMin dur brk flds ds i₁ = some L₂) :
    slotDays endMin startMin dur brk flds (d :: ds) index = some (l ++ L₂) := by
  rw [slotDays, h1]
  show (match slotDays endMin startMin dur brk flds ds i₁ with
    | none => none
    | some rest => some (l ++ rest)) = some (l ++ L₂)
  rw [h2]

theorem slotDays_total (endMin startMin dur : Nat) (brk : Option (Nat × Nat)) (flds : Nat)
    (hdur : 1 ≤ dur) :
    ∀ (dayList : List Nat) (index : Nat),
      ∃ L, slotDays endMin startMin dur brk flds dayList index = some L := by
  intro dayList
  induction dayList with
  | nil => intro index; exact ⟨[], rfl⟩
  | cons d ds ih =>
    intro index
    obtain ⟨⟨l, i₁⟩, h1⟩ := slotDayLoop_total endMin dur brk flds d hdur (endMin + 1)
      startMin index (by omega) (by omega)
    obtain ⟨L₂, h2⟩ := ih i₁
    exact ⟨l ++ L₂, slotDays_cons_eq endMin startMin dur brk flds d ds index i₁ l L₂ h1 h2⟩

theorem generate_timeslots_total (days fields : Nat) (st et : String) (dur : Nat)
    (brk : Option (String × String)) (hdur : 1 ≤ dur) :
    ∃ ts, _generate_timeslots days fields st et dur brk = some ts := by
  unfold _generate_timeslots
  exact slotDays_total _ _ _ _ _ hdur _ 0

/-- Any successful slot enumeration (any duration) has gap-free indices
from 0 in emission order and no repeated `(day, time, field)` triple. -/
theorem generate_timeslots_props (days fields : Nat) (st et : String) (dur : Nat)
    (brk : Option (String × String)) (ts : List Slot)
    (h : _generate_timeslots days fields st et dur brk = some ts) :
    ts.map (·.2.2.2) = List.range ts.length ∧
      ts.Pairwise (fun s s' => ¬(s.1 = s'.1 ∧ s.2.1 = s'.2.1 ∧ s.2.2.1 = s'.2.2.1)) := by
  unfold _generate_timeslots at h
  have hnd : ((List.range days).map (· + 1)).Pairwise (· ≠ ·) := by
    rw [List.pairwise_map]
    exact (List.sorted_lt_range days).imp (by omega)
  obtain ⟨hmap, hpw⟩ := slotDays_sound _ _ _ _ _ _ 0 ts hnd h
  refine ⟨?_, hpw⟩
  rw [List.range_eq_range']
  exact hmap

/-- C5: for `days ≥ 1`, `fields ≥ 1`, `match_duration > 0`, the slot
enumerator terminates with a list whose `index` values are exactly
`0, 1, 2, …` in emission order (strictly increasing and gap-free, so the
list is already sorted by index) and in which no two slots share the same
`(day, time, field)` triple. -/
theorem generate_timeslots_spec (days fields : Nat) (start_time end_time : String)
    (dur : Nat) (brk : Option (String × String))
    (hdays : 1 ≤ days) (hfields : 1 ≤ fields) (hdur : 0 < dur) :
    ∃ ts, _generate_timeslots days fields start_time end_time dur brk = some ts ∧
      ts.map (·.2.2.2) = List.range ts.length ∧
      ts.Pairwise (fun s s' => s.2.2.2 < s'.2.2.2) ∧
      ts.Pairwise (fun s s' => ¬(s.1 = s'.1 ∧ s.2.1 = s'.2.1 ∧ s.2.2.1 = s'.2.2.1)) := by
  obtain ⟨ts, hts⟩ := generate_timeslots_total days fields start_time end_time dur brk hdur
  obtain ⟨hmap, hpw⟩ := generate_timeslots_props days fields start_time end_time dur brk ts hts
  refine ⟨ts, hts, hmap, ?_, hpw⟩
  have hlt : (ts.map (·.2.2.2)).Pairwise (· < ·) := by
    rw [hmap]
    exact List.sorted_lt_range _
  exact List.pairwise_map.mp hlt

/-- Witness for C5 at a concrete configuration. -/
theorem generate_timeslots_spec_witness :
    (1 ≤ 1 ∧ 1 ≤ 1 ∧ 0 < 60) ∧
      (∃ ts, _generate_timeslots 1 1 "09:00" "10:30" 60 none = some ts ∧
        ts.map (·.2.2.2) = List.range ts.length ∧
        ts.Pairwise (fun s s' => s.2.2.2 < s'.2.2.2) ∧
        ts.Pairwise (fun s s' => ¬(s.1 = s'.1 ∧ s.2.1 = s'.2.1 ∧ s.2.2.1 = s'.2.2.1))) :=
  ⟨⟨le_refl 1, le_refl 1, by decide⟩,
    generate_timeslots_spec 1 1 "09:00" "10:30" 60 none (le_refl 1) (le_refl 1) (by decide)⟩

/-! ## Lemmas: scheduler invariants -/

theorem find?_enum_getElem {α : Type} {l : List α} {p : Nat × α → Bool} {idx : Nat} {e : α}
    (h : l.enum.find? p = some (idx, e)) : l[idx]? = some e :=
  List.mem_enum_iff_getElem?.mp (List.mem_of_find?_eq_some h)

/-- Decomposition of a successful feasibility test. -/
theorem feasibleSlot_true {schedule : List Match} {lp : String → Option Int} {rest : Int}
    {cap : Option Int} {home away : String} {idx day : Nat} {time f : String} {abs : Int}
    (h : feasibleSlot schedule lp rest cap home away (idx, ((day, time, f), abs)) = true) :
    (∀ m ∈ schedule, m.match_id ≠ idx) ∧
      rest ≤ abs - lpGet lp home ∧ rest ≤ abs - lpGet lp away := by
  simp only [feasibleSlot, Bool.and_eq_true, Bool.not_eq_true', List.any_eq_false,
    decide_eq_false_iff_not, not_lt] at h
  obtain ⟨⟨⟨h1, h2⟩, h3⟩, _⟩ := h
  refine ⟨fun m hm => ?_, by omega, by omega⟩
  simpa using h1 m hm

theorem mem_of_getElem?_eq_some {α : Type} {l : List α} {i : Nat} {a : α}
    (h : l[i]? = some a) : a ∈ l := by
  obtain ⟨hlt, he⟩ := List.getElem?_eq_some.mp h
  exact he ▸ List.getElem_mem hlt

/-- Invariant of the binding loop: every bound match records the slot the
occupied-check keys on (`tsAbs[match_id]`), no two bound matches share a
`match_id`, and one match is bound per pending entry. -/
theorem scheduleMatches_invariant (tsAbs : List ((Nat × String × String) × Int))
    (rest : Int) (cap : Option Int)
    (habs : ∀ e ∈ tsAbs, e.2 = slotAbs e.1.1 e.1.2.1) :
    ∀ (pending : List (String × String × String × Nat)) (sched : List Match)
      (lp : String → Option Int) (sched' : List Match) (lp' : String → Option Int),
      scheduleMatches tsAbs rest cap pending sched lp = some (sched', lp') →
      (∀ m ∈ sched, tsAbs[m.match_id]? = some ((m.day, m.time, m.field), mAbs m)) →
      sched.Pairwise (fun a b => a.match_id ≠ b.match_id) →
      (∀ m ∈ sched', tsAbs[m.match_id]? = some ((m.day, m.time, m.field), mAbs m)) ∧
        sched'.Pairwise (fun a b => a.match_id ≠ b.match_id) ∧
        sched'.length = sched.length + pending.length := by
  intro pending
  induction pending with
  | nil =>
    intro sched lp sched' lp' h hinv hpw
    simp only [scheduleMatches, Option.some.injEq, Prod.mk.injEq] at h
    obtain ⟨rfl, _⟩ := h
    exact ⟨hinv, hpw, by simp⟩
  | cons pm pending ih =>
    intro sched lp sched' lp' h hinv hpw
    obtain ⟨zone, home, away, rnd⟩ := pm
    rw [scheduleMatches] at h
    cases hfind : tsAbs.enum.find? (feasibleSlot sched lp rest cap home away) with
    | none => rw [hfind] at h; exact absurd h (by simp)
    | some found =>
      obtain ⟨idx, ⟨⟨day, time, f⟩, abs⟩⟩ := found
      rw [hfind] at h
      simp only [Option.some.injEq] at h
      have hts : tsAbs[idx]? = some ((day, time, f), abs) := find?_enum_getElem hfind
      have habs' : abs = slotAbs day time :=
        habs _ (mem_of_getElem?_eq_some hts)
      obtain ⟨hocc, _, _⟩ := feasibleSlot_true (List.find?_some hfind)
      have hnew : tsAbs[(⟨day, time, f, home, away, zone, rnd, idx⟩ : Match).match_id]?
          = some (((⟨day, time, f, home, away, zone, rnd, idx⟩ : Match).day,
            (⟨day, time, f, home, away, zone, rnd, idx⟩ : Match).time,
            (⟨day, time, f, home, away, zone, rnd, idx⟩ : Match).field),
            mAbs ⟨day, time, f, home, away, zone, rnd, idx⟩) := by
        show tsAbs[idx]? = some ((day, time, f),
          mAbs ⟨day, time, f, home, away, zone, rnd, idx⟩)
        rw [hts, habs']
        rfl
      obtain ⟨h1, h2, h3⟩ := ih _ _ _ _ h
        (by
          intro m hm
          rcases List.mem_append.mp hm with hm | hm
          · exact hinv m hm
          · rw [List.mem_singleton.mp hm]
            exact hnew)
        (by
          rw [List.pairwise_append]
          refine ⟨hpw, List.pairwise_singleton _ _, ?_⟩
          intro a ha b hb
          rw [List.mem_singleton.mp hb]
          exact hocc a ha)
      refine ⟨h1, h2, ?_⟩
      rw [h3, List.length_append, List.length_cons]
      simp only [List.length_cons, List.length_nil]
      omega

/-- Invariant of the binding loop for the rest constraint: `last_played`
dominates every bound match of each team, and any two bound matches
sharing a team are at least `rest` minutes apart (needs `0 ≤ rest`). -/
theorem scheduleMatches_rest (tsAbs : List ((Nat × String × String) × Int))
    (rest : Int) (cap : Option Int) (hrest : 0 ≤ rest)
    (habs : ∀ e ∈ tsAbs, e.2 = slotAbs e.1.1 e.1.2.1) :
    ∀ (pending : List (String × String × String × Nat)) (sched : List Match)
      (lp : String → Option Int) (sched' : List Match) (lp' : String → Option Int),
      scheduleMatches tsAbs rest cap pending sched lp = some (sched', lp') →
      (∀ m ∈ sched, ∀ t, involves t m → ∃ v, lp t = some v ∧ mAbs m ≤ v) →
      sched.Pairwise (fun a b => ∀ t, involves t a → involves t b →
        rest ≤ |mAbs a - mAbs b|) →
      sched'.Pairwise (fun a b => ∀ t, involves t a → involves t b →
        rest ≤ |mAbs a - mAbs b|) := by
  intro pending
  induction pending with
  | nil =>
    intro sched lp sched' lp' h _ hpw
    simp only [scheduleMatches, Option.some.injEq, Prod.mk.injEq] at h
    obtain ⟨rfl, _⟩ := h
    exact hpw
  | cons pm pending ih =>
    intro sched lp sched' lp' h hdom hpw
    obtain ⟨zone, home, away, rnd⟩ := pm
    rw [scheduleMatches] at h
    cases hfind : tsAbs.enum.find? (feasibleSlot sched lp rest cap home away) with
    | none => rw [hfind] at h; exact absurd h (by simp)
    | some found =>
      obtain ⟨idx, ⟨⟨day, time, f⟩, abs⟩⟩ := found
      rw [hfind] at h
      simp only [Option.some.injEq] at h
      have habs' : abs = slotAbs day time :=
        habs _ (mem_of_getElem?_eq_some (find?_enum_getElem hfind))
      obtain ⟨_, hrh, hra⟩ := feasibleSlot_true (List.find?_some hfind)
      have hnabs : mAbs (⟨day, time, f, home, away, zone, rnd, idx⟩ : Match) = abs := by
        unfold mAbs
        rw [habs']
      -- feasibility, translated through domination, gives the rest gap
      -- against every already-bound match
      have hgap : ∀ m ∈ sched, ∀ t, involves t m →
          involves t (⟨day, time, f, home, away, zone, rnd, idx⟩ : Match) →
          rest ≤ |mAbs m - mAbs (⟨day, time, f, home, away, zone, rnd, idx⟩ : Match)| := by
        intro m hm t hmt hnt
        obtain ⟨v, hv, hle⟩ := hdom m hm t hmt
        have hlpget : lpGet lp t = v := by unfold lpGet; rw [hv]; rfl
        have hva : rest ≤ abs - v := by
          rcases hnt with ht | ht
          · have hth : t = home := ht
            rw [hth] at hlpget
            omega
          · have hta : t = away := ht
            rw [hta] at hlpget
            omega
        rw [hnabs, abs_sub_comm, abs_of_nonneg (by omega)]
        omega
      refine ih _ _ _ _ h ?_ ?_
      · -- domination for the extended schedule and updated map
        intro m hm t hmt
        rcases List.mem_append.mp hm with hm | hm
        · obtain ⟨v, hv, hle⟩ := hdom m hm t hmt
          have hlpget : lpGet lp t = v := by unfold lpGet; rw [hv]; rfl
          by_cases hta : t = away
          · refine ⟨abs, by simp [hta], ?_⟩
            rw [hta] at hlpget
            omega
          · by_cases hth : t = home
            · refine ⟨abs, by simp [hta, hth], ?_⟩
              rw [hth] at hlpget
              omega
            · exact ⟨v, by simp [hta, hth, hv], hle⟩
        · rw [List.mem_singleton.mp hm] at hmt ⊢
          rw [hnabs]
          by_cases hta : t = away
          · exact ⟨abs, by simp [hta], le_refl _⟩
          · have hth : t = home := by
              rcases hmt with ht | ht
              · exact ht
              · exact absurd ht hta
            exact ⟨abs, by simp [hta, hth], le_refl _⟩
      · rw [List.pairwise_append]
        refine ⟨hpw, List.pairwise_singleton _ _, ?_⟩
        intro a ha b hb
        rw [List.mem_singleton.mp hb]
        exact hgap a ha

/-! ## Lemmas: `generate_fixture`'s final output -/

theorem fixtureSlotAbs_abs (ts : List Slot) :
    ∀ e ∈ fixtureSlotAbs ts, e.2 = slotAbs e.1.1 e.1.2.1 := by
  intro e he
  unfold fixtureSlotAbs at he
  obtain ⟨s, _, rfl⟩ := List.mem_map.mp he
  rfl

theorem fixtureSlotAbs_pairwise (ts : List Slot)
    (hpw : ts.Pairwise (fun s s' => ¬(s.1 = s'.1 ∧ s.2.1 = s'.2.1 ∧ s.2.2.1 = s'.2.2.1))) :
    (fixtureSlotAbs ts).Pairwise
      (fun e e' => ¬(e.1.1 = e'.1.1 ∧ e.1.2.1 = e'.1.2.1 ∧ e.1.2.2 = e'.1.2.2)) := by
  unfold fixtureSlotAbs
  rw [List.pairwise_map]
  have hperm := List.perm_insertionSort (fun a b : Slot => a.2.2.2 ≤ b.2.2.2) ts
  exact (hperm.pairwise_iff
    (fun h hc => h ⟨hc.1.symm, hc.2.1.symm, hc.2.2.symm⟩)).mpr hpw

/-- A successful `generate_fixture` run decomposed into its stages. -/
theorem generate_fixture_some_elim (teams : List Team) (system : String) (days fields : Nat)
    (st et : String) (dur : Nat) (rest : Int) (brk : Option (String × String)) (haa : Bool)
    (cap : Option Int) (out : List Match)
    (h : generate_fixture teams system days fields st et dur rest brk haa cap = some out) :
    ∃ (ts : List Slot) (sched : List Match) (lp : String → Option Int),
      _generate_timeslots days fields st et dur brk = some ts ∧
      scheduleMatches (fixtureSlotAbs ts) rest cap (pendingOf teams system haa) []
        (fun _ => none) = some (sched, lp) ∧
      out = finalizeSchedule sched := by
  unfold generate_fixture at h
  cases hts : _generate_timeslots days fields st et dur brk with
  | none => rw [hts] at h; exact absurd h (by simp)
  | some ts =>
    rw [hts] at h
    simp only [] at h
    cases hsm : scheduleMatches (fixtureSlotAbs ts) rest cap (pendingOf teams system haa) []
        (fun _ => none) with
    | none => rw [hsm] at h; exact absurd h (by simp)
    | some p =>
      obtain ⟨sched, lp⟩ := p
      rw [hsm] at h
      simp only [Option.some.injEq] at h
      exact ⟨ts, sched, lp, rfl, hsm, h.symm⟩

theorem finalizeSchedule_length (sched : List Match) :
    (finalizeSchedule sched).length = sched.length := by
  unfold finalizeSchedule
  rw [List.enum_eq_enumFrom, List.length_map, List.enumFrom_length,
    List.length_insertionSort]

theorem finalizeSchedule_getElem (sched : List Match) (i : Nat)
    (hi : i < (sched.insertionSort keyLE).length) (hi' : i < (finalizeSchedule sched).length) :
    (finalizeSchedule sched)[i] =
      { (sched.insertionSort keyLE)[i] with match_id := i + 1 } := by
  simp only [finalizeSchedule, List.enum_eq_enumFrom, List.getElem_map,
    List.getElem_enumFrom]
  simp

/-- A pairwise relation that ignores `match_id` survives the final
renumbering. -/
theorem finalizeSchedule_pairwise {R : Match → Match → Prop}
    (hresp : ∀ a b k k', R a b → R { a with match_id := k } { b with match_id := k' })
    (sched : List Match) (h : (sched.insertionSort keyLE).Pairwise R) :
    (finalizeSchedule sched).Pairwise R := by
  rw [List.pairwise_iff_getElem] at h ⊢
  intro i j hi hj hij
  have hlen : (finalizeSchedule sched).length = (sched.insertionSort keyLE).length := by
    rw [finalizeSchedule_length, List.length_insertionSort]
  have hi2 : i < (sched.insertionSort keyLE).length := hlen ▸ hi
  have hj2 : j < (sched.insertionSort keyLE).length := hlen ▸ hj
  rw [finalizeSchedule_getElem sched i hi2 hi, finalizeSchedule_getElem sched j hj2 hj]
  exact hresp _ _ _ _ (h i j hi2 hj2 hij)

/-- C6: in every successful run of `generate_fixture`, no two returned
matches share the same `(day, time, field)` triple — no slot hosts two
matches. -/
theorem generate_fixture_no_shared_slot (teams : List Team) (system : String)
    (days fields : Nat) (st et : String) (dur : Nat) (rest : Int)
    (brk : Option (String × String)) (haa : Bool) (cap : Option Int) (out : List Match)
    (h : generate_fixture teams system days fields st et dur rest brk haa cap = some out) :
    ∀ (i j : Nat) (hi : i < out.length) (hj : j < out.length), i ≠ j →
      ¬(out[i].day = out[j].day ∧ out[i].time = out[j].time ∧
        out[i].field = out[j].field) := by
  obtain ⟨ts, sched, lp, hts, hsm, rfl⟩ :=
    generate_fixture_some_elim teams system days fields st et dur rest brk haa cap out h
  have htriples := (generate_timeslots_props days fields st et dur brk ts hts).2
  have htsPW := fixtureSlotAbs_pairwise ts htriples
  obtain ⟨hlook, hids, _⟩ := scheduleMatches_invariant (fixtureSlotAbs ts) rest cap
    (fixtureSlotAbs_abs ts) (pendingOf teams system haa) [] (fun _ => none) sched lp hsm
    (by intro m hm; simp at hm) List.Pairwise.nil
  have hschedPW : sched.Pairwise
      (fun a b => ¬(a.day = b.day ∧ a.time = b.time ∧ a.field = b.field)) := by
    rw [List.pairwise_iff_getElem] at hids ⊢
    rw [List.pairwise_iff_getElem] at htsPW
    intro i j hi hj hij
    have ha := hlook sched[i] (List.getElem_mem hi)
    have hb := hlook sched[j] (List.getElem_mem hj)
    obtain ⟨hia, hea⟩ := List.getElem?_eq_some.mp ha
    obtain ⟨hib, heb⟩ := List.getElem?_eq_some.mp hb
    have hidne : sched[i].match_id ≠ sched[j].match_id := hids i j hi hj hij
    intro hcon
    rcases Nat.lt_or_ge sched[i].match_id sched[j].match_id with hlt | hge
    · exact htsPW _ _ hia hib hlt
        (by rw [hea, heb]; exact ⟨hcon.1, hcon.2.1, hcon.2.2⟩)
    · have hlt : sched[j].match_id < sched[i].match_id := by omega
      exact htsPW _ _ hib hia hlt
        (by rw [hea, heb]; exact ⟨hcon.1.symm, hcon.2.1.symm, hcon.2.2.symm⟩)
  have hsortPW := ((List.perm_insertionSort keyLE sched).pairwise_iff
    (fun hR hc => hR ⟨hc.1.symm, hc.2.1.symm, hc.2.2.symm⟩)).mpr hschedPW
  have houtPW := finalizeSchedule_pairwise (fun a b k k' hR => hR) sched hsortPW
  rw [List.pairwise_iff_getElem] at houtPW
  intro i j hi hj hij
  rcases Nat.lt_or_ge i j with hlt | hge
  · exact houtPW i j hi hj hlt
  · have hlt : j < i := by omega
    intro hcon
    exact houtPW j i hj hi hlt ⟨hcon.1.symm, hcon.2.1.symm, hcon.2.2.symm⟩

/-- C1: in every successful run with `rest ≥ 0`, any two returned matches
that involve a common team are separated by at least `rest` minutes of
absolute time (`(day − 1)·1440` plus minutes-of-day of the slot time). -/
theorem generate_fixture_rest_separation (teams : List Team) (system : String)
    (days fields : Nat) (st et : String) (dur : Nat) (rest : Int)
    (brk : Option (String × String)) (haa : Bool) (cap : Option Int) (out : List Match)
    (hrest : 0 ≤ rest)
    (h : generate_fixture teams system days fields st et dur rest brk haa cap = some out) :
    ∀ (i j : Nat) (hi : i < out.length) (hj : j < out.length), i ≠ j →
      ∀ t, involves t out[i] → involves t out[j] →
        rest ≤ |mAbs out[i] - mAbs out[j]| := by
  obtain ⟨ts, sched, lp, hts, hsm, rfl⟩ :=
    generate_fixture_some_elim teams system days fields st et dur rest brk haa cap out h
  have hschedPW := scheduleMatches_rest (fixtureSlotAbs ts) rest cap hrest
    (fixtureSlotAbs_abs ts) (pendingOf teams system haa) [] (fun _ => none) sched lp hsm
    (by intro m hm; simp at hm) List.Pairwise.nil
  have hsymm : ∀ {a b : Match},
      (∀ t, involves t a → involves t b → rest ≤ |mAbs a - mAbs b|) →
      ∀ t, involves t b → involves t a → rest ≤ |mAbs b - mAbs a| := by
    intro a b hR t h1 h2
    rw [abs_sub_comm]
    exact hR t h2 h1
  have hsortPW := ((List.perm_insertionSort keyLE sched).pairwise_iff
    (fun hR => hsymm hR)).mpr hschedPW
  have houtPW := finalizeSchedule_pairwise (fun a b k k' hR => hR) sched hsortPW
  rw [List.pairwise_iff_getElem] at houtPW
  intro i j hi hj hij t h1 h2
  rcases Nat.lt_or_ge i j with hlt | hge
  · exact houtPW i j hi hj hlt t h1 h2
  · have hlt : j < i := by omega
    rw [abs_sub_comm]
    exact houtPW j i hj hi hlt t h2 h1

theorem renumber_map_id :
    ∀ (l : List Match) (k : Nat),
      (((l.enumFrom k).map fun p => { p.2 with match_id := p.1 + 1 }).map (·.match_id))
        = List.range' (k + 1) l.length := by
  intro l
  induction l with
  | nil => intro k; rfl
  | cons m l ih =>
    intro k
    rw [List.enumFrom_cons, List.map_cons, List.map_cons, ih (k + 1), List.length_cons,
      List.range'_succ]

theorem renumber_map_id_enum (l : List Match) :
    ((l.enum.map fun p => { p.2 with match_id := p.1 + 1 }).map (·.match_id))
      = List.range' 1 l.length :=
  renumber_map_id l 0

/-- C4: in every successful run, the returned list is sorted by
`(day, time-of-day, field name)` ascending, and the `match_id` values are
exactly `1 … N` in that order, with `N` the pending-match count. -/
theorem generate_fixture_sorted_ids (teams : List Team) (system : String)
    (days fields : Nat) (st et : String) (dur : Nat) (rest : Int)
    (brk : Option (String × String)) (haa : Bool) (cap : Option Int) (out : List Match)
    (h : generate_fixture teams system days fields st et dur rest brk haa cap = some out) :
    out.Pairwise keyLE ∧ out.map (·.match_id) = List.range' 1 out.length ∧
      out.length = (pendingOf teams system haa).length := by
  obtain ⟨ts, sched, lp, hts, hsm, rfl⟩ :=
    generate_fixture_some_elim teams system days fields st et dur rest brk haa cap out h
  obtain ⟨_, _, hlen⟩ := scheduleMatches_invariant (fixtureSlotAbs ts) rest cap
    (fixtureSlotAbs_abs ts) (pendingOf teams system haa) [] (fun _ => none) sched lp hsm
    (by intro m hm; simp at hm) List.Pairwise.nil
  refine ⟨?_, ?_, ?_⟩
  · exact finalizeSchedule_pairwise (fun a b k k' hR => hR) sched
      (List.sorted_insertionSort keyLE sched)
  · rw [finalizeSchedule_length]
    unfold finalizeSchedule
    rw [renumber_map_id_enum (sched.insertionSort keyLE), List.length_insertionSort]
  · rw [finalizeSchedule_length]
    simpa using hlen

/-- Witness for C6: a full four-team day; the theorem applies to the
concrete successful run. -/
theorem generate_fixture_no_shared_slot_witness :
    (generate_fixture [⟨"a", ""⟩, ⟨"b", ""⟩, ⟨"c", ""⟩, ⟨"d", ""⟩] "rr" 1 1 "09:00" "18:00"
        60 60 none false none
      = some [⟨1, "09:00", "c1", "a", "d", "A", 1, 1⟩, ⟨1, "10:00", "c1", "b", "c", "A", 1, 2⟩,
          ⟨1, "11:00", "c1", "a", "c", "A", 2, 3⟩, ⟨1, "12:00", "c1", "d", "b", "A", 2, 4⟩,
          ⟨1, "13:00", "c1", "a", "b", "A", 3, 5⟩, ⟨1, "14:00", "c1", "c", "d", "A", 3, 6⟩]) ∧
    (∀ (i j : Nat)
      (hi : i < ([⟨1, "09:00", "c1", "a", "d", "A", 1, 1⟩, ⟨1, "10:00", "c1", "b", "c", "A", 1, 2⟩,
          ⟨1, "11:00", "c1", "a", "c", "A", 2, 3⟩, ⟨1, "12:00", "c1", "d", "b", "A", 2, 4⟩,
          ⟨1, "13:00", "c1", "a", "b", "A", 3, 5⟩,
          ⟨1, "14:00", "c1", "c", "d", "A", 3, 6⟩] : List Match).length)
      (hj : j < ([⟨1, "09:00", "c1", "a", "d", "A", 1, 1⟩, ⟨1, "10:00", "c1", "b", "c", "A", 1, 2⟩,
          ⟨1, "11:00", "c1", "a", "c", "A", 2, 3⟩, ⟨1, "12:00", "c1", "d", "b", "A", 2, 4⟩,
          ⟨1, "13:00", "c1", "a", "b", "A", 3, 5⟩,
          ⟨1, "14:00", "c1", "c", "d", "A", 3, 6⟩] : List Match).length), i ≠ j →
      ¬(([⟨1, "09:00", "c1", "a", "d", "A", 1, 1⟩, ⟨1, "10:00", "c1", "b", "c", "A", 1, 2⟩,
          ⟨1, "11:00", "c1", "a", "c", "A", 2, 3⟩, ⟨1, "12:00", "c1", "d", "b", "A", 2, 4⟩,
          ⟨1, "13:00", "c1", "a", "b", "A", 3, 5⟩,
          ⟨1, "14:00", "c1", "c", "d", "A", 3, 6⟩] : List Match)[i].day
          = ([⟨1, "09:00", "c1", "a", "d", "A", 1, 1⟩, ⟨1, "10:00", "c1", "b", "c", "A", 1, 2⟩,
          ⟨1, "11:00", "c1", "a", "c", "A", 2, 3⟩, ⟨1, "12:00", "c1", "d", "b", "A", 2, 4⟩,
          ⟨1, "13:00", "c1", "a", "b", "A", 3, 5⟩,
          ⟨1, "14:00", "c1", "c", "d", "A", 3, 6⟩] : List Match)[j].day ∧
        ([⟨1, "09:00", "c1", "a", "d", "A", 1, 1⟩, ⟨1, "10:00", "c1", "b", "c", "A", 1, 2⟩,
          ⟨1, "11:00", "c1", "a", "c", "A", 2, 3⟩, ⟨1, "12:00", "c1", "d", "b", "A", 2, 4⟩,
          ⟨1, "13:00", "c1", "a", "b", "A", 3, 5⟩,
          ⟨1, "14:00", "c1", "c", "d", "A", 3, 6⟩] : List Match)[i].time
          = ([⟨1, "09:00", "c1", "a", "d", "A", 1, 1⟩, ⟨1, "10:00", "c1", "b", "c", "A", 1, 2⟩,
          ⟨1, "11:00", "c1", "a", "c", "A", 2, 3⟩, ⟨1, "12:00", "c1", "d", "b", "A", 2, 4⟩,
          ⟨1, "13:00", "c1", "a", "b", "A", 3, 5⟩,
          ⟨1, "14:00", "c1", "c", "d", "A", 3, 6⟩] : List Match)[j].time ∧
        ([⟨1, "09:00", "c1", "a", "d", "A", 1, 1⟩, ⟨1, "10:00", "c1", "b", "c", "A", 1, 2⟩,
          ⟨1, "11:00", "c1", "a", "c", "A", 2, 3⟩, ⟨1, "12:00", "c1", "d", "b", "A", 2, 4⟩,
          ⟨1, "13:00", "c1", "a", "b", "A", 3, 5⟩,
          ⟨1, "14:00", "c1", "c", "d", "A", 3, 6⟩] : List Match)[i].field
          = ([⟨1, "09:00", "c1", "a", "d", "A", 1, 1⟩, ⟨1, "10:00", "c1", "b", "c", "A", 1, 2⟩,
          ⟨1, "11:00", "c1", "a", "c", "A", 2, 3⟩, ⟨1, "12:00", "c1", "d", "b", "A", 2, 4⟩,
          ⟨1, "13:00", "c1", "a", "b", "A", 3, 5⟩,
          ⟨1, "14:00", "c1", "c", "d", "A", 3, 6⟩] : List Match)[j].field)) :=
  ⟨by decide,
    generate_fixture_no_shared_slot [⟨"a", ""⟩, ⟨"b", ""⟩, ⟨"c", ""⟩, ⟨"d", ""⟩] "rr" 1 1
      "09:00" "18:00" 60 60 none false none _ (by decide)⟩

/-- Witness for C1: the same four-team run, with `rest = 60 ≥ 0`. -/
theorem generate_fixture_rest_separation_witness :
    ((0 : Int) ≤ 60 ∧
      generate_fixture [⟨"a", ""⟩, ⟨"b", ""⟩, ⟨"c", ""⟩, ⟨"d", ""⟩] "rr" 1 1 "09:00" "18:00"
          60 60 none false none
        = some [⟨1, "09:00", "c1", "a", "d", "A", 1, 1⟩, ⟨1, "10:00", "c1", "b", "c", "A", 1, 2⟩,
            ⟨1, "11:00", "c1", "a", "c", "A", 2, 3⟩, ⟨1, "12:00", "c1", "d", "b", "A", 2, 4⟩,
            ⟨1, "13:00", "c1", "a", "b", "A", 3, 5⟩,
            ⟨1, "14:00", "c1", "c", "d", "A", 3, 6⟩]) ∧
    (∀ (i j : Nat)
      (hi : i < ([⟨1, "09:00", "c1", "a", "d", "A", 1, 1⟩, ⟨1, "10:00", "c1", "b", "c", "A", 1, 2⟩,
          ⟨1, "11:00", "c1", "a", "c", "A", 2, 3⟩, ⟨1, "12:00", "c1", "d", "b", "A", 2, 4⟩,
          ⟨1, "13:00", "c1", "a", "b", "A", 3, 5⟩,
          ⟨1, "14:00", "c1", "c", "d", "A", 3, 6⟩] : List Match).length)
      (hj : j < ([⟨1, "09:00", "c1", "a", "d", "A", 1, 1⟩, ⟨1, "10:00", "c1", "b", "c", "A", 1, 2⟩,
          ⟨1, "11:00", "c1", "a", "c", "A", 2, 3⟩, ⟨1, "12:00", "c1", "d", "b", "A", 2, 4⟩,
          ⟨1, "13:00", "c1", "a", "b", "A", 3, 5⟩,
          ⟨1, "14:00", "c1", "c", "d", "A", 3, 6⟩] : List Match).length), i ≠ j →
      ∀ t, involves t (([⟨1, "09:00", "c1", "a", "d", "A", 1, 1⟩,
          ⟨1, "10:00", "c1", "b", "c", "A", 1, 2⟩,
          ⟨1, "11:00", "c1", "a", "c", "A", 2, 3⟩, ⟨1, "12:00", "c1", "d", "b", "A", 2, 4⟩,
          ⟨1, "13:00", "c1", "a", "b", "A", 3, 5⟩,
          ⟨1, "14:00", "c1", "c", "d", "A", 3, 6⟩] : List Match)[i]) →
        involves t (([⟨1, "09:00", "c1", "a", "d", "A", 1, 1⟩,
          ⟨1, "10:00", "c1", "b", "c", "A", 1, 2⟩,
          ⟨1, "11:00", "c1", "a", "c", "A", 2, 3⟩, ⟨1, "12:00", "c1", "d", "b", "A", 2, 4⟩,
          ⟨1, "13:00", "c1", "a", "b", "A", 3, 5⟩,
          ⟨1, "14:00", "c1", "c", "d", "A", 3, 6⟩] : List Match)[j]) →
        (60 : Int) ≤ |mAbs (([⟨1, "09:00", "c1", "a", "d", "A", 1, 1⟩,
          ⟨1, "10:00", "c1", "b", "c", "A", 1, 2⟩,
          ⟨1, "11:00", "c1", "a", "c", "A", 2, 3⟩, ⟨1, "12:00", "c1", "d", "b", "A", 2, 4⟩,
          ⟨1, "13:00", "c1", "a", "b", "A", 3, 5⟩,
          ⟨1, "14:00", "c1", "c", "d", "A", 3, 6⟩] : List Match)[i])
          - mAbs (([⟨1, "09:00", "c1", "a", "d", "A", 1, 1⟩,
          ⟨1, "10:00", "c1", "b", "c", "A", 1, 2⟩,
          ⟨1, "11:00", "c1", "a", "c", "A", 2, 3⟩, ⟨1, "12:00", "c1", "d", "b", "A", 2, 4⟩,
          ⟨1, "13:00", "c1", "a", "b", "A", 3, 5⟩,
          ⟨1, "14:00", "c1", "c", "d", "A", 3, 6⟩] : List Match)[j])|) :=
  ⟨⟨by decide, by decide⟩,
    generate_fixture_rest_separation [⟨"a", ""⟩, ⟨"b", ""⟩, ⟨"c", ""⟩, ⟨"d", ""⟩] "rr" 1 1
      "09:00" "18:00" 60 60 none false none _ (by decide) (by decide)⟩

/-- Witness for C4 on a small concrete run. -/
theorem generate_fixture_sorted_ids_witness :
    (generate_fixture [⟨"a", ""⟩, ⟨"b", ""⟩] "rr" 1 1 "09:00" "11:00" 60 60 none false none
      = some [⟨1, "09:00", "c1", "a", "b", "A", 1, 1⟩]) ∧
    (([⟨1, "09:00", "c1", "a", "b", "A", 1, 1⟩] : List Match).Pairwise keyLE ∧
      ([⟨1, "09:00", "c1", "a", "b", "A", 1, 1⟩] : List Match).map (·.match_id)
        = List.range' 1 ([⟨1, "09:00", "c1", "a", "b", "A", 1, 1⟩] : List Match).length ∧
      ([⟨1, "09:00", "c1", "a", "b", "A", 1, 1⟩] : List Match).length
        = (pendingOf [⟨"a", ""⟩, ⟨"b", ""⟩] "rr" false).length) :=
  ⟨by decide,
    generate_fixture_sorted_ids [⟨"a", ""⟩, ⟨"b", ""⟩] "rr" 1 1 "09:00" "11:00" 60 60 none
      false none _ (by decide)⟩


/-! ## Lemmas: `generate_match_list` under system `8x3` -/

/-- A three-team round robin (one added bye): three rounds of one real
match each. -/
theorem rr3 (a b c : String) (ha : a ≠ "BYE") (hb : b ≠ "BYE") (hc : c ≠ "BYE") :
    generate_round_robin [a, b, c] false = [[(b, c)], [(a, c)], [(a, b)]] := by
  simp [generate_round_robin, rrRounds, roundPairs, rotateOnce, List.filterMap, ha, hb, hc]

theorem strLower_8x3 : strLower "8x3" = "8x3" := rfl

theorem zoneLabels_8 : zoneLabels 8 = ["A", "B", "C", "D", "E", "F", "G", "H"] := rfl

/-- C8 (amended): for every list of exactly 24 teams, all with empty
zone and none named `"BYE"`, system `"8x3"` partitions the teams into 8
contiguous zones `'A'`–`'H'` of 3 teams each and produces exactly 24
pending matches, 3 per zone. -/
theorem generate_match_list_8x3_spec (teams : List Team)
    (hlen : teams.length = 24) (hzone : ∀ t ∈ teams, t.zone = "")
    (hbye : ∀ t ∈ teams, t.name ≠ "BYE") :
    (assign_zones teams "8x3").map (·.zone) =
      ["A", "A", "A", "B", "B", "B", "C", "C", "C", "D", "D", "D",
       "E", "E", "E", "F", "F", "F", "G", "G", "G", "H", "H", "H"] ∧
    (generate_match_list teams "8x3" false).length = 24 ∧
    ∀ z ∈ (["A", "B", "C", "D", "E", "F", "G", "H"] : List String),
      (generate_match_list teams "8x3" false).countP (fun m => m.1 == z) = 3 := by
  rcases teams with _ | ⟨⟨n0, z0⟩, _ | ⟨⟨n1, z1⟩, _ | ⟨⟨n2, z2⟩, _ | ⟨⟨n3, z3⟩, _ | ⟨⟨n4, z4⟩, _ | ⟨⟨n5, z5⟩, _ | ⟨⟨n6, z6⟩, _ | ⟨⟨n7, z7⟩, _ | ⟨⟨n8, z8⟩, _ | ⟨⟨n9, z9⟩, _ | ⟨⟨n10, z10⟩, _ | ⟨⟨n11, z11⟩, _ | ⟨⟨n12, z12⟩, _ | ⟨⟨n13, z13⟩, _ | ⟨⟨n14, z14⟩, _ | ⟨⟨n15, z15⟩, _ | ⟨⟨n16, z16⟩, _ | ⟨⟨n17, z17⟩, _ | ⟨⟨n18, z18⟩, _ | ⟨⟨n19, z19⟩, _ | ⟨⟨n20, z20⟩, _ | ⟨⟨n21, z21⟩, _ | ⟨⟨n22, z22⟩, _ | ⟨⟨n23, z23⟩, _ | ⟨⟨n24, z24⟩, tl⟩⟩⟩⟩⟩⟩⟩⟩⟩⟩⟩⟩⟩⟩⟩⟩⟩⟩⟩⟩⟩⟩⟩⟩⟩
  all_goals try (exfalso; simp only [List.length_cons, List.length_nil] at hlen; omega)
  have hz0 : z0 = "" := hzone ⟨n0, z0⟩ (by simp)
  have hz1 : z1 = "" := hzone ⟨n1, z1⟩ (by simp)
  have hz2 : z2 = "" := hzone ⟨n2, z2⟩ (by simp)
  have hz3 : z3 = "" := hzone ⟨n3, z3⟩ (by simp)
  have hz4 : z4 = "" := hzone ⟨n4, z4⟩ (by simp)
  have hz5 : z5 = "" := hzone ⟨n5, z5⟩ (by simp)
  have hz6 : z6 = "" := hzone ⟨n6, z6⟩ (by simp)
  have hz7 : z7 = "" := hzone ⟨n7, z7⟩ (by simp)
  have hz8 : z8 = "" := hzone ⟨n8, z8⟩ (by simp)
  have hz9 : z9 = "" := hzone ⟨n9, z9⟩ (by simp)
  have hz10 : z10 = "" := hzone ⟨n10, z10⟩ (by simp)
  have hz11 : z11 = "" := hzone ⟨n11, z11⟩ (by simp)
  have hz12 : z12 = "" := hzone ⟨n12, z12⟩ (by simp)
  have hz13 : z13 = "" := hzone ⟨n13, z13⟩ (by simp)
  have hz14 : z14 = "" := hzone ⟨n14, z14⟩ (by simp)
  have hz15 : z15 = "" := hzone ⟨n15, z15⟩ (by simp)
  have hz16 : z16 = "" := hzone ⟨n16, z16⟩ (by simp)
  have hz17 : z17 = "" := hzone ⟨n17, z17⟩ (by simp)
  have hz18 : z18 = "" := hzone ⟨n18, z18⟩ (by simp)
  have hz19 : z19 = "" := hzone ⟨n19, z19⟩ (by simp)
  have hz20 : z20 = "" := hzone ⟨n20, z20⟩ (by simp)
  have hz21 : z21 = "" := hzone ⟨n21, z21⟩ (by simp)
  have hz22 : z22 = "" := hzone ⟨n22, z22⟩ (by simp)
  have hz23 : z23 = "" := hzone ⟨n23, z23⟩ (by simp)
  subst hz0 hz1 hz2 hz3 hz4 hz5 hz6 hz7 hz8 hz9 hz10 hz11 hz12 hz13 hz14 hz15 hz16 hz17 hz18 hz19 hz20 hz21 hz22 hz23
  have hb0 : n0 ≠ "BYE" := hbye ⟨n0, ""⟩ (by simp)
  have hb1 : n1 ≠ "BYE" := hbye ⟨n1, ""⟩ (by simp)
  have hb2 : n2 ≠ "BYE" := hbye ⟨n2, ""⟩ (by simp)
  have hb3 : n3 ≠ "BYE" := hbye ⟨n3, ""⟩ (by simp)
  have hb4 : n4 ≠ "BYE" := hbye ⟨n4, ""⟩ (by simp)
  have hb5 : n5 ≠ "BYE" := hbye ⟨n5, ""⟩ (by simp)
  have hb6 : n6 ≠ "BYE" := hbye ⟨n6, ""⟩ (by simp)
  have hb7 : n7 ≠ "BYE" := hbye ⟨n7, ""⟩ (by simp)
  have hb8 : n8 ≠ "BYE" := hbye ⟨n8, ""⟩ (by simp)
  have hb9 : n9 ≠ "BYE" := hbye ⟨n9, ""⟩ (by simp)
  have hb10 : n10 ≠ "BYE" := hbye ⟨n10, ""⟩ (by simp)
  have hb11 : n11 ≠ "BYE" := hbye ⟨n11, ""⟩ (by simp)
  have hb12 : n12 ≠ "BYE" := hbye ⟨n12, ""⟩ (by simp)
  have hb13 : n13 ≠ "BYE" := hbye ⟨n13, ""⟩ (by simp)
  have hb14 : n14 ≠ "BYE" := hbye ⟨n14, ""⟩ (by simp)
  have hb15 : n15 ≠ "BYE" := hbye ⟨n15, ""⟩ (by simp)
  have hb16 : n16 ≠ "BYE" := hbye ⟨n16, ""⟩ (by simp)
  have hb17 : n17 ≠ "BYE" := hbye ⟨n17, ""⟩ (by simp)
  have hb18 : n18 ≠ "BYE" := hbye ⟨n18, ""⟩ (by simp)
  have hb19 : n19 ≠ "BYE" := hbye ⟨n19, ""⟩ (by simp)
  have hb20 : n20 ≠ "BYE" := hbye ⟨n20, ""⟩ (by simp)
  have hb21 : n21 ≠ "BYE" := hbye ⟨n21, ""⟩ (by simp)
  have hb22 : n22 ≠ "BYE" := hbye ⟨n22, ""⟩ (by simp)
  have hb23 : n23 ≠ "BYE" := hbye ⟨n23, ""⟩ (by simp)
  have hza : assign_zones [(⟨n0, ""⟩ : Team), (⟨n1, ""⟩ : Team), (⟨n2, ""⟩ : Team), (⟨n3, ""⟩ : Team), (⟨n4, ""⟩ : Team), (⟨n5, ""⟩ : Team), (⟨n6, ""⟩ : Team), (⟨n7, ""⟩ : Team), (⟨n8, ""⟩ : Team), (⟨n9, ""⟩ : Team), (⟨n10, ""⟩ : Team), (⟨n11, ""⟩ : Team), (⟨n12, ""⟩ : Team), (⟨n13, ""⟩ : Team), (⟨n14, ""⟩ : Team), (⟨n15, ""⟩ : Team), (⟨n16, ""⟩ : Team), (⟨n17, ""⟩ : Team), (⟨n18, ""⟩ : Team), (⟨n19, ""⟩ : Team), (⟨n20, ""⟩ : Team), (⟨n21, ""⟩ : Team), (⟨n22, ""⟩ : Team), (⟨n23, ""⟩ : Team)] "8x3" = [(⟨n0, "A"⟩ : Team), (⟨n1, "A"⟩ : Team), (⟨n2, "A"⟩ : Team), (⟨n3, "B"⟩ : Team), (⟨n4, "B"⟩ : Team), (⟨n5, "B"⟩ : Team), (⟨n6, "C"⟩ : Team), (⟨n7, "C"⟩ : Team), (⟨n8, "C"⟩ : Team), (⟨n9, "D"⟩ : Team), (⟨n10, "D"⟩ : Team), (⟨n11, "D"⟩ : Team), (⟨n12, "E"⟩ : Team), (⟨n13, "E"⟩ : Team), (⟨n14, "E"⟩ : Team), (⟨n15, "F"⟩ : Team), (⟨n16, "F"⟩ : Team), (⟨n17, "F"⟩ : Team), (⟨n18, "G"⟩ : Team), (⟨n19, "G"⟩ : Team), (⟨n20, "G"⟩ : Team), (⟨n21, "H"⟩ : Team), (⟨n22, "H"⟩ : Team), (⟨n23, "H"⟩ : Team)] := by
    unfold assign_zones setZonesBySize
    rw [show ([(⟨n0, ""⟩ : Team), (⟨n1, ""⟩ : Team), (⟨n2, ""⟩ : Team), (⟨n3, ""⟩ : Team), (⟨n4, ""⟩ : Team), (⟨n5, ""⟩ : Team), (⟨n6, ""⟩ : Team), (⟨n7, ""⟩ : Team), (⟨n8, ""⟩ : Team), (⟨n9, ""⟩ : Team), (⟨n10, ""⟩ : Team), (⟨n11, ""⟩ : Team), (⟨n12, ""⟩ : Team), (⟨n13, ""⟩ : Team), (⟨n14, ""⟩ : Team), (⟨n15, ""⟩ : Team), (⟨n16, ""⟩ : Team), (⟨n17, ""⟩ : Team), (⟨n18, ""⟩ : Team), (⟨n19, ""⟩ : Team), (⟨n20, ""⟩ : Team), (⟨n21, ""⟩ : Team), (⟨n22, ""⟩ : Team), (⟨n23, ""⟩ : Team)] : List Team).length = 24 from rfl, strLower_8x3]
    norm_num [zoneLabels_8, List.enum_eq_enumFrom, List.enumFrom_cons]
  have hgr : groupByZone [(⟨n0, "A"⟩ : Team), (⟨n1, "A"⟩ : Team), (⟨n2, "A"⟩ : Team), (⟨n3, "B"⟩ : Team), (⟨n4, "B"⟩ : Team), (⟨n5, "B"⟩ : Team), (⟨n6, "C"⟩ : Team), (⟨n7, "C"⟩ : Team), (⟨n8, "C"⟩ : Team), (⟨n9, "D"⟩ : Team), (⟨n10, "D"⟩ : Team), (⟨n11, "D"⟩ : Team), (⟨n12, "E"⟩ : Team), (⟨n13, "E"⟩ : Team), (⟨n14, "E"⟩ : Team), (⟨n15, "F"⟩ : Team), (⟨n16, "F"⟩ : Team), (⟨n17, "F"⟩ : Team), (⟨n18, "G"⟩ : Team), (⟨n19, "G"⟩ : Team), (⟨n20, "G"⟩ : Team), (⟨n21, "H"⟩ : Team), (⟨n22, "H"⟩ : Team), (⟨n23, "H"⟩ : Team)] = [("A", [(⟨n0, "A"⟩ : Team), ⟨n1, "A"⟩, ⟨n2, "A"⟩]), ("B", [(⟨n3, "B"⟩ : Team), ⟨n4, "B"⟩, ⟨n5, "B"⟩]), ("C", [(⟨n6, "C"⟩ : Team), ⟨n7, "C"⟩, ⟨n8, "C"⟩]), ("D", [(⟨n9, "D"⟩ : Team), ⟨n10, "D"⟩, ⟨n11, "D"⟩]), ("E", [(⟨n12, "E"⟩ : Team), ⟨n13, "E"⟩, ⟨n14, "E"⟩]), ("F", [(⟨n15, "F"⟩ : Team), ⟨n16, "F"⟩, ⟨n17, "F"⟩]), ("G", [(⟨n18, "G"⟩ : Team), ⟨n19, "G"⟩, ⟨n20, "G"⟩]), ("H", [(⟨n21, "H"⟩ : Team), ⟨n22, "H"⟩, ⟨n23, "H"⟩])] := by
    simp [groupByZone, insertZone]
  have hpm : generate_match_list [(⟨n0, ""⟩ : Team), (⟨n1, ""⟩ : Team), (⟨n2, ""⟩ : Team), (⟨n3, ""⟩ : Team), (⟨n4, ""⟩ : Team), (⟨n5, ""⟩ : Team), (⟨n6, ""⟩ : Team), (⟨n7, ""⟩ : Team), (⟨n8, ""⟩ : Team), (⟨n9, ""⟩ : Team), (⟨n10, ""⟩ : Team), (⟨n11, ""⟩ : Team), (⟨n12, ""⟩ : Team), (⟨n13, ""⟩ : Team), (⟨n14, ""⟩ : Team), (⟨n15, ""⟩ : Team), (⟨n16, ""⟩ : Team), (⟨n17, ""⟩ : Team), (⟨n18, ""⟩ : Team), (⟨n19, ""⟩ : Team), (⟨n20, ""⟩ : Team), (⟨n21, ""⟩ : Team), (⟨n22, ""⟩ : Team), (⟨n23, ""⟩ : Team)] "8x3" false =
      [("A", n1, n2, 1), ("A", n0, n2, 2), ("A", n0, n1, 3),
      ("B", n4, n5, 1), ("B", n3, n5, 2), ("B", n3, n4, 3),
      ("C", n7, n8, 1), ("C", n6, n8, 2), ("C", n6, n7, 3),
      ("D", n10, n11, 1), ("D", n9, n11, 2), ("D", n9, n10, 3),
      ("E", n13, n14, 1), ("E", n12, n14, 2), ("E", n12, n13, 3),
      ("F", n16, n17, 1), ("F", n15, n17, 2), ("F", n15, n16, 3),
      ("G", n19, n20, 1), ("G", n18, n20, 2), ("G", n18, n19, 3),
      ("H", n22, n23, 1), ("H", n21, n23, 2), ("H", n21, n22, 3)] := by
    simp only [generate_match_list]
    rw [hza, hgr]
    simp [pendingMatches, List.enum_eq_enumFrom, List.enumFrom_cons, List.enumFrom_nil,
      rr3 n0 n1 n2 hb0 hb1 hb2,
      rr3 n3 n4 n5 hb3 hb4 hb5,
      rr3 n6 n7 n8 hb6 hb7 hb8,
      rr3 n9 n10 n11 hb9 hb10 hb11,
      rr3 n12 n13 n14 hb12 hb13 hb14,
      rr3 n15 n16 n17 hb15 hb16 hb17,
      rr3 n18 n19 n20 hb18 hb19 hb20,
      rr3 n21 n22 n23 hb21 hb22 hb23]
  refine ⟨by rw [hza]; rfl, by rw [hpm]; rfl, ?_⟩
  intro z hz
  rw [hpm]
  fin_cases hz <;> rfl

/-- C8 is false as stated: with a team literally named `"BYE"` (which
the claim's quantification permits), its zone's round robin drops the
pairings against it and only 22 pending matches come back. -/
theorem generate_match_list_8x3_bye_counterexample :
    (∀ t ∈ ([(⟨"BYE", ""⟩ : Team), (⟨"T2", ""⟩ : Team), (⟨"T3", ""⟩ : Team), (⟨"T4", ""⟩ : Team), (⟨"T5", ""⟩ : Team), (⟨"T6", ""⟩ : Team), (⟨"T7", ""⟩ : Team), (⟨"T8", ""⟩ : Team), (⟨"T9", ""⟩ : Team), (⟨"T10", ""⟩ : Team), (⟨"T11", ""⟩ : Team), (⟨"T12", ""⟩ : Team), (⟨"T13", ""⟩ : Team), (⟨"T14", ""⟩ : Team), (⟨"T15", ""⟩ : Team), (⟨"T16", ""⟩ : Team), (⟨"T17", ""⟩ : Team), (⟨"T18", ""⟩ : Team), (⟨"T19", ""⟩ : Team), (⟨"T20", ""⟩ : Team), (⟨"T21", ""⟩ : Team), (⟨"T22", ""⟩ : Team), (⟨"T23", ""⟩ : Team), (⟨"T24", ""⟩ : Team)] : List Team), t.zone = "") ∧
    ([(⟨"BYE", ""⟩ : Team), (⟨"T2", ""⟩ : Team), (⟨"T3", ""⟩ : Team), (⟨"T4", ""⟩ : Team), (⟨"T5", ""⟩ : Team), (⟨"T6", ""⟩ : Team), (⟨"T7", ""⟩ : Team), (⟨"T8", ""⟩ : Team), (⟨"T9", ""⟩ : Team), (⟨"T10", ""⟩ : Team), (⟨"T11", ""⟩ : Team), (⟨"T12", ""⟩ : Team), (⟨"T13", ""⟩ : Team), (⟨"T14", ""⟩ : Team), (⟨"T15", ""⟩ : Team), (⟨"T16", ""⟩ : Team), (⟨"T17", ""⟩ : Team), (⟨"T18", ""⟩ : Team), (⟨"T19", ""⟩ : Team), (⟨"T20", ""⟩ : Team), (⟨"T21", ""⟩ : Team), (⟨"T22", ""⟩ : Team), (⟨"T23", ""⟩ : Team), (⟨"T24", ""⟩ : Team)] : List Team).length = 24 ∧
    (generate_match_list [(⟨"BYE", ""⟩ : Team), (⟨"T2", ""⟩ : Team), (⟨"T3", ""⟩ : Team), (⟨"T4", ""⟩ : Team), (⟨"T5", ""⟩ : Team), (⟨"T6", ""⟩ : Team), (⟨"T7", ""⟩ : Team), (⟨"T8", ""⟩ : Team), (⟨"T9", ""⟩ : Team), (⟨"T10", ""⟩ : Team), (⟨"T11", ""⟩ : Team), (⟨"T12", ""⟩ : Team), (⟨"T13", ""⟩ : Team), (⟨"T14", ""⟩ : Team), (⟨"T15", ""⟩ : Team), (⟨"T16", ""⟩ : Team), (⟨"T17", ""⟩ : Team), (⟨"T18", ""⟩ : Team), (⟨"T19", ""⟩ : Team), (⟨"T20", ""⟩ : Team), (⟨"T21", ""⟩ : Team), (⟨"T22", ""⟩ : Team), (⟨"T23", ""⟩ : Team), (⟨"T24", ""⟩ : Team)] "8x3" false).length = 22 ∧
    ¬((generate_match_list [(⟨"BYE", ""⟩ : Team), (⟨"T2", ""⟩ : Team), (⟨"T3", ""⟩ : Team), (⟨"T4", ""⟩ : Team), (⟨"T5", ""⟩ : Team), (⟨"T6", ""⟩ : Team), (⟨"T7", ""⟩ : Team), (⟨"T8", ""⟩ : Team), (⟨"T9", ""⟩ : Team), (⟨"T10", ""⟩ : Team), (⟨"T11", ""⟩ : Team), (⟨"T12", ""⟩ : Team), (⟨"T13", ""⟩ : Team), (⟨"T14", ""⟩ : Team), (⟨"T15", ""⟩ : Team), (⟨"T16", ""⟩ : Team), (⟨"T17", ""⟩ : Team), (⟨"T18", ""⟩ : Team), (⟨"T19", ""⟩ : Team), (⟨"T20", ""⟩ : Team), (⟨"T21", ""⟩ : Team), (⟨"T22", ""⟩ : Team), (⟨"T23", ""⟩ : Team), (⟨"T24", ""⟩ : Team)] "8x3" false).length = 24) := by
  refine ⟨by decide, by decide, by decide, by decide⟩

/-- Witness for the amended C8 on 24 concrete team names. -/
theorem generate_match_list_8x3_spec_witness :
    (([(⟨"T1", ""⟩ : Team), (⟨"T2", ""⟩ : Team), (⟨"T3", ""⟩ : Team), (⟨"T4", ""⟩ : Team), (⟨"T5", ""⟩ : Team), (⟨"T6", ""⟩ : Team), (⟨"T7", ""⟩ : Team), (⟨"T8", ""⟩ : Team), (⟨"T9", ""⟩ : Team), (⟨"T10", ""⟩ : Team), (⟨"T11", ""⟩ : Team), (⟨"T12", ""⟩ : Team), (⟨"T13", ""⟩ : Team), (⟨"T14", ""⟩ : Team), (⟨"T15", ""⟩ : Team), (⟨"T16", ""⟩ : Team), (⟨"T17", ""⟩ : Team), (⟨"T18", ""⟩ : Team), (⟨"T19", ""⟩ : Team), (⟨"T20", ""⟩ : Team), (⟨"T21", ""⟩ : Team), (⟨"T22", ""⟩ : Team), (⟨"T23", ""⟩ : Team), (⟨"T24", ""⟩ : Team)] : List Team).length = 24 ∧
      (∀ t ∈ ([(⟨"T1", ""⟩ : Team), (⟨"T2", ""⟩ : Team), (⟨"T3", ""⟩ : Team), (⟨"T4", ""⟩ : Team), (⟨"T5", ""⟩ : Team), (⟨"T6", ""⟩ : Team), (⟨"T7", ""⟩ : Team), (⟨"T8", ""⟩ : Team), (⟨"T9", ""⟩ : Team), (⟨"T10", ""⟩ : Team), (⟨"T11", ""⟩ : Team), (⟨"T12", ""⟩ : Team), (⟨"T13", ""⟩ : Team), (⟨"T14", ""⟩ : Team), (⟨"T15", ""⟩ : Team), (⟨"T16", ""⟩ : Team), (⟨"T17", ""⟩ : Team), (⟨"T18", ""⟩ : Team), (⟨"T19", ""⟩ : Team), (⟨"T20", ""⟩ : Team), (⟨"T21", ""⟩ : Team), (⟨"T22", ""⟩ : Team), (⟨"T23", ""⟩ : Team), (⟨"T24", ""⟩ : Team)] : List Team), t.zone = "") ∧
      (∀ t ∈ ([(⟨"T1", ""⟩ : Team), (⟨"T2", ""⟩ : Team), (⟨"T3", ""⟩ : Team), (⟨"T4", ""⟩ : Team), (⟨"T5", ""⟩ : Team), (⟨"T6", ""⟩ : Team), (⟨"T7", ""⟩ : Team), (⟨"T8", ""⟩ : Team), (⟨"T9", ""⟩ : Team), (⟨"T10", ""⟩ : Team), (⟨"T11", ""⟩ : Team), (⟨"T12", ""⟩ : Team), (⟨"T13", ""⟩ : Team), (⟨"T14", ""⟩ : Team), (⟨"T15", ""⟩ : Team), (⟨"T16", ""⟩ : Team), (⟨"T17", ""⟩ : Team), (⟨"T18", ""⟩ : Team), (⟨"T19", ""⟩ : Team), (⟨"T20", ""⟩ : Team), (⟨"T21", ""⟩ : Team), (⟨"T22", ""⟩ : Team), (⟨"T23", ""⟩ : Team), (⟨"T24", ""⟩ : Team)] : List Team), t.name ≠ "BYE")) ∧
    ((assign_zones [(⟨"T1", ""⟩ : Team), (⟨"T2", ""⟩ : Team), (⟨"T3", ""⟩ : Team), (⟨"T4", ""⟩ : Team), (⟨"T5", ""⟩ : Team), (⟨"T6", ""⟩ : Team), (⟨"T7", ""⟩ : Team), (⟨"T8", ""⟩ : Team), (⟨"T9", ""⟩ : Team), (⟨"T10", ""⟩ : Team), (⟨"T11", ""⟩ : Team), (⟨"T12", ""⟩ : Team), (⟨"T13", ""⟩ : Team), (⟨"T14", ""⟩ : Team), (⟨"T15", ""⟩ : Team), (⟨"T16", ""⟩ : Team), (⟨"T17", ""⟩ : Team), (⟨"T18", ""⟩ : Team), (⟨"T19", ""⟩ : Team), (⟨"T20", ""⟩ : Team), (⟨"T21", ""⟩ : Team), (⟨"T22", ""⟩ : Team), (⟨"T23", ""⟩ : Team), (⟨"T24", ""⟩ : Team)] "8x3").map (·.zone) =
      ["A", "A", "A", "B", "B", "B", "C", "C", "C", "D", "D", "D",
       "E", "E", "E", "F", "F", "F", "G", "G", "G", "H", "H", "H"] ∧
    (generate_match_list [(⟨"T1", ""⟩ : Team), (⟨"T2", ""⟩ : Team), (⟨"T3", ""⟩ : Team), (⟨"T4", ""⟩ : Team), (⟨"T5", ""⟩ : Team), (⟨"T6", ""⟩ : Team), (⟨"T7", ""⟩ : Team), (⟨"T8", ""⟩ : Team), (⟨"T9", ""⟩ : Team), (⟨"T10", ""⟩ : Team), (⟨"T11", ""⟩ : Team), (⟨"T12", ""⟩ : Team), (⟨"T13", ""⟩ : Team), (⟨"T14", ""⟩ : Team), (⟨"T15", ""⟩ : Team), (⟨"T16", ""⟩ : Team), (⟨"T17", ""⟩ : Team), (⟨"T18", ""⟩ : Team), (⟨"T19", ""⟩ : Team), (⟨"T20", ""⟩ : Team), (⟨"T21", ""⟩ : Team), (⟨"T22", ""⟩ : Team), (⟨"T23", ""⟩ : Team), (⟨"T24", ""⟩ : Team)] "8x3" false).length = 24 ∧
    ∀ z ∈ (["A", "B", "C", "D", "E", "F", "G", "H"] : List String),
      (generate_match_list [(⟨"T1", ""⟩ : Team), (⟨"T2", ""⟩ : Team), (⟨"T3", ""⟩ : Team), (⟨"T4", ""⟩ : Team), (⟨"T5", ""⟩ : Team), (⟨"T6", ""⟩ : Team), (⟨"T7", ""⟩ : Team), (⟨"T8", ""⟩ : Team), (⟨"T9", ""⟩ : Team), (⟨"T10", ""⟩ : Team), (⟨"T11", ""⟩ : Team), (⟨"T12", ""⟩ : Team), (⟨"T13", ""⟩ : Team), (⟨"T14", ""⟩ : Team), (⟨"T15", ""⟩ : Team), (⟨"T16", ""⟩ : Team), (⟨"T17", ""⟩ : Team), (⟨"T18", ""⟩ : Team), (⟨"T19", ""⟩ : Team), (⟨"T20", ""⟩ : Team), (⟨"T21", ""⟩ : Team), (⟨"T22", ""⟩ : Team), (⟨"T23", ""⟩ : Team), (⟨"T24", ""⟩ : Team)] "8x3" false).countP (fun m => m.1 == z) = 3) :=
  ⟨⟨by decide, by decide, by decide⟩,
    generate_match_list_8x3_spec [(⟨"T1", ""⟩ : Team), (⟨"T2", ""⟩ : Team), (⟨"T3", ""⟩ : Team), (⟨"T4", ""⟩ : Team), (⟨"T5", ""⟩ : Team), (⟨"T6", ""⟩ : Team), (⟨"T7", ""⟩ : Team), (⟨"T8", ""⟩ : Team), (⟨"T9", ""⟩ : Team), (⟨"T10", ""⟩ : Team), (⟨"T11", ""⟩ : Team), (⟨"T12", ""⟩ : Team), (⟨"T13", ""⟩ : Team), (⟨"T14", ""⟩ : Team), (⟨"T15", ""⟩ : Team), (⟨"T16", ""⟩ : Team), (⟨"T17", ""⟩ : Team), (⟨"T18", ""⟩ : Team), (⟨"T19", ""⟩ : Team), (⟨"T20", ""⟩ : Team), (⟨"T21", ""⟩ : Team), (⟨"T22", ""⟩ : Team), (⟨"T23", ""⟩ : Team), (⟨"T24", ""⟩ : Team)] (by decide) (by decide) (by decide)⟩

/-! ## C3: round-robin pair coverage

The circle method: round `r` plays the rotated list `rotateOnce^[r] teams`,
whose shape is `t :: rest.rotate ((rest.length - 1) * r)`.  Working in
`ZMod rest.length` (an odd modulus, so `2` is cancellable), each unordered
pair of distinct teams is pinned to a unique `(round, position)` slot of the
first pass; counting then gives exactly one occurrence per pass. -/

lemma rrRounds_eq_map (teams : List String) (k : Nat) :
    rrRounds teams k = (List.range k).map (fun r => roundPairs (rotateOnce^[r] teams)) := by
  induction k generalizing teams with
  | zero => rfl
  | succ k ih =>
    rw [rrRounds, ih, List.range_succ_eq_map]
    simp [Function.iterate_succ_apply, List.map_map, Function.comp_def]

lemma rotateOnce_cons (t : String) (rest : List String) (h : rest ≠ []) :
    rotateOnce (t :: rest) = t :: rest.rotate (rest.length - 1) := by
  obtain ⟨m, hm⟩ : ∃ m, rest.length = m + 1 := by
    cases rest with
    | nil => exact absurd rfl h
    | cons a l => exact ⟨l.length, rfl⟩
  rw [List.rotate_eq_drop_append_take (by omega)]
  simp only [rotateOnce, List.length_cons, hm, List.dropLast_eq_take]
  simp [hm]

lemma rotateOnce_iterate (t : String) (rest : List String) (h : rest ≠ []) (r : Nat) :
    rotateOnce^[r] (t :: rest) = t :: rest.rotate ((rest.length - 1) * r) := by
  induction r with
  | zero => simp
  | succ r ih =>
    rw [Function.iterate_succ_apply', ih,
      rotateOnce_cons t _ (by simp [← List.length_pos_iff_ne_nil] at h ⊢; omega)]
    rw [List.rotate_rotate, List.length_rotate,
      show (rest.length - 1) * r + (rest.length - 1) = (rest.length - 1) * (r + 1) by ring]

lemma iterate_length (t : String) (rest : List String) (h : rest ≠ []) (r : Nat) :
    (rotateOnce^[r] (t :: rest)).length = rest.length + 1 := by
  rw [rotateOnce_iterate t rest h r]
  simp

lemma iterate_getD_zero (t : String) (rest : List String) (h : rest ≠ []) (r : Nat) :
    (rotateOnce^[r] (t :: rest)).getD 0 "" = t := by
  rw [rotateOnce_iterate t rest h r]
  rfl

lemma iterate_getD_succ (t : String) (rest : List String) (h : rest ≠ []) (r j : Nat)
    (hj : j < rest.length) :
    (rotateOnce^[r] (t :: rest)).getD (j + 1) "" =
      rest.getD ((j + (rest.length - 1) * r) % rest.length) "" := by
  rw [rotateOnce_iterate t rest h r]
  have h1 : j < (rest.rotate ((rest.length - 1) * r)).length := by
    rw [List.length_rotate]; exact hj
  have h2 : (j + (rest.length - 1) * r) % rest.length < rest.length :=
    Nat.mod_lt _ (by omega)
  simp only [List.getD_cons_succ]
  rw [List.getD_eq_getElem?_getD, List.getD_eq_getElem?_getD,
    List.getElem?_eq_getElem h1, List.getElem?_eq_getElem h2]
  simp [List.getElem_rotate]

lemma iterate_getD_high (t : String) (rest : List String) (h : rest ≠ []) (r i : Nat)
    (hi : i < (rest.length + 1) / 2) :
    (rotateOnce^[r] (t :: rest)).getD (rest.length - i) "" =
      rest.getD ((rest.length - i - 1 + (rest.length - 1) * r) % rest.length) "" := by
  have hlen : 1 ≤ rest.length := by
    cases rest with
    | nil => exact absurd rfl h
    | cons a l => simp
  have h2 := iterate_getD_succ t rest h r (rest.length - i - 1) (by omega)
  rw [show rest.length - i - 1 + 1 = rest.length - i from by omega] at h2
  exact h2

lemma rest_getD_inj (rest : List String) (hnd : rest.Nodup) (u v : Nat)
    (hu : u < rest.length) (hv : v < rest.length)
    (he : rest.getD u "" = rest.getD v "") : u = v := by
  rw [List.getD_eq_getElem?_getD, List.getD_eq_getElem?_getD,
    List.getElem?_eq_getElem hu, List.getElem?_eq_getElem hv] at he
  exact (List.Nodup.getElem_inj_iff hnd).mp he

lemma rest_getD_mem (rest : List String) (u : Nat) (hu : u < rest.length) :
    rest.getD u "" ∈ rest := by
  rw [List.getD_eq_getElem?_getD, List.getElem?_eq_getElem hu]
  exact List.getElem_mem hu

lemma natmod_eq_of_zmod (m u v : Nat) [NeZero m] (hv : v < m)
    (h : (u : ZMod m) = (v : ZMod m)) : u % m = v := by
  have := congrArg ZMod.val h
  rwa [ZMod.val_natCast, ZMod.val_natCast, Nat.mod_eq_of_lt hv] at this

lemma zmod_eq_of_natmod (m u v : Nat) (h : u % m = v % m) : (u : ZMod m) = (v : ZMod m) :=
  (ZMod.natCast_eq_natCast_iff' u v m).mpr h

lemma natCast_sub_self (m k : Nat) (h : k ≤ m) : ((m - k : Nat) : ZMod m) = -(k : ZMod m) := by
  rw [Nat.cast_sub h, ZMod.natCast_self]
  ring

lemma two_mul_half (m : Nat) (hm : m % 2 = 1) :
    (2 : ZMod m) * (((m + 1) / 2 : Nat) : ZMod m) = 1 := by
  have h1 : ((2 * ((m + 1) / 2) : Nat) : ZMod m) = ((m + 1 : Nat) : ZMod m) := by
    congr 1
    omega
  push_cast at h1
  rw [ZMod.natCast_self] at h1
  simpa using h1

lemma zmod_cancel_two (m : Nat) (hm : m % 2 = 1) (u v : ZMod m) (h : 2 * u = 2 * v) :
    u = v := by
  have h2 := two_mul_half m hm
  calc u = ((2 : ZMod m) * (((m + 1) / 2 : Nat) : ZMod m)) * u := by rw [h2]; ring
    _ = (((m + 1) / 2 : Nat) : ZMod m) * (2 * u) := by ring
    _ = (((m + 1) / 2 : Nat) : ZMod m) * (2 * v) := by rw [h]
    _ = ((2 : ZMod m) * (((m + 1) / 2 : Nat) : ZMod m)) * v := by ring
    _ = v := by rw [h2]; ring

lemma rr_core_head (t : String) (rest : List String) (y : String)
    (hm2 : rest.length % 2 = 1) (hnd : (t :: rest).Nodup) (hy : y ∈ rest) :
    ∃ r₀, r₀ < rest.length ∧
      (rotateOnce^[r₀] (t :: rest)).getD 0 "" = t ∧
      (rotateOnce^[r₀] (t :: rest)).getD (rest.length - 0) "" = y ∧
      ∀ r i, r < rest.length → i < (rest.length + 1) / 2 →
        (((rotateOnce^[r] (t :: rest)).getD i "" = t ∧
          (rotateOnce^[r] (t :: rest)).getD (rest.length - i) "" = y) ∨
         ((rotateOnce^[r] (t :: rest)).getD i "" = y ∧
          (rotateOnce^[r] (t :: rest)).getD (rest.length - i) "" = t)) →
        r = r₀ ∧ i = 0 := by
  have hm1 : 1 ≤ rest.length := by omega
  have hne : rest ≠ [] := List.ne_nil_of_length_pos (by omega)
  haveI : NeZero rest.length := ⟨by omega⟩
  have hts : t ∉ rest := (List.nodup_cons.mp hnd).1
  have hrnd : rest.Nodup := (List.nodup_cons.mp hnd).2
  obtain ⟨b, hb, hbg⟩ := List.mem_iff_getElem.mp hy
  have hbD : rest.getD b "" = y := by
    rw [List.getD_eq_getElem?_getD, List.getElem?_eq_getElem hb]
    exact hbg
  have hty : t ≠ y := fun he => hts (he ▸ hy)
  have hABz : ∀ s : Nat,
      ((rest.length - 1 + (rest.length - 1) * s : Nat) : ZMod rest.length) =
        -1 - (s : ZMod rest.length) := by
    intro s
    push_cast
    rw [natCast_sub_self _ 1 hm1]
    ring
  set r₀ : Nat := (-((b : ZMod rest.length) + 1)).val with hr₀
  have hr₀lt : r₀ < rest.length := by rw [hr₀]; exact ZMod.val_lt _
  have hval : (rest.length - 1 + (rest.length - 1) * r₀) % rest.length = b := by
    refine natmod_eq_of_zmod _ _ _ hb ?_
    rw [hABz, hr₀, ZMod.natCast_rightInverse _]
    ring
  have hsolve : ∀ r : Nat, r < rest.length →
      (rest.length - 1 + (rest.length - 1) * r) % rest.length = b → r = r₀ := by
    intro r hr h
    have h1 : ((rest.length - 1 + (rest.length - 1) * r : Nat) : ZMod rest.length) =
        ((rest.length - 1 + (rest.length - 1) * r₀ : Nat) : ZMod rest.length) :=
      zmod_eq_of_natmod _ _ _ (by rw [h, hval])
    rw [hABz, hABz] at h1
    have h2 : ((r : Nat) : ZMod rest.length) = ((r₀ : Nat) : ZMod rest.length) := by
      linear_combination (-1 : ZMod rest.length) * h1
    have h3 := natmod_eq_of_zmod _ _ _ hr₀lt h2
    rwa [Nat.mod_eq_of_lt hr] at h3
  refine ⟨r₀, hr₀lt, iterate_getD_zero t rest hne _, ?_, ?_⟩
  · rw [iterate_getD_high t rest hne _ 0 (by omega)]
    simp only [Nat.sub_zero]
    rw [hval]
    exact hbD
  · intro r i hr hi hQ
    have hawr : (rotateOnce^[r] (t :: rest)).getD (rest.length - i) "" =
        rest.getD ((rest.length - i - 1 + (rest.length - 1) * r) % rest.length) "" :=
      iterate_getD_high t rest hne r i hi
    rcases Nat.eq_zero_or_pos i with hi0 | hipos
    · subst hi0
      refine ⟨?_, rfl⟩
      simp only [Nat.sub_zero] at hawr hQ
      rcases hQ with ⟨_, haw2⟩ | ⟨hhm2, _⟩
      · rw [hawr] at haw2
        have hlt : (rest.length - 1 + (rest.length - 1) * r) % rest.length < rest.length :=
          Nat.mod_lt _ (by omega)
        exact hsolve r hr (rest_getD_inj rest hrnd _ b hlt hb (haw2.trans hbD.symm))
      · rw [iterate_getD_zero t rest hne r] at hhm2
        exact absurd hhm2 hty
    · exfalso
      have hhmr : (rotateOnce^[r] (t :: rest)).getD i "" =
          rest.getD ((i - 1 + (rest.length - 1) * r) % rest.length) "" := by
        have h2 := iterate_getD_succ t rest hne r (i - 1) (by omega)
        rw [show i - 1 + 1 = i from by omega] at h2
        exact h2
      rcases hQ with ⟨hhm2, _⟩ | ⟨_, haw2⟩
      · rw [hhmr] at hhm2
        exact hts (hhm2 ▸ rest_getD_mem rest _ (Nat.mod_lt _ (by omega)))
      · rw [hawr] at haw2
        exact hts (haw2 ▸ rest_getD_mem rest _ (Nat.mod_lt _ (by omega)))

lemma rr_core_rest (t : String) (rest : List String) (x y : String)
    (hm2 : rest.length % 2 = 1) (hnd : (t :: rest).Nodup)
    (hx : x ∈ rest) (hy : y ∈ rest) (hxy : x ≠ y) :
    ∃ r₀ i₀, r₀ < rest.length ∧ i₀ < (rest.length + 1) / 2 ∧
      (((rotateOnce^[r₀] (t :: rest)).getD i₀ "" = x ∧
        (rotateOnce^[r₀] (t :: rest)).getD (rest.length - i₀) "" = y) ∨
       ((rotateOnce^[r₀] (t :: rest)).getD i₀ "" = y ∧
        (rotateOnce^[r₀] (t :: rest)).getD (rest.length - i₀) "" = x)) ∧
      ∀ r i, r < rest.length → i < (rest.length + 1) / 2 →
        (((rotateOnce^[r] (t :: rest)).getD i "" = x ∧
          (rotateOnce^[r] (t :: rest)).getD (rest.length - i) "" = y) ∨
         ((rotateOnce^[r] (t :: rest)).getD i "" = y ∧
          (rotateOnce^[r] (t :: rest)).getD (rest.length - i) "" = x)) →
        r = r₀ ∧ i = i₀ := by
  have hm1 : 1 ≤ rest.length := by omega
  have hne : rest ≠ [] := List.ne_nil_of_length_pos (by omega)
  haveI : NeZero rest.length := ⟨by omega⟩
  have hts : t ∉ rest := (List.nodup_cons.mp hnd).1
  have hrnd : rest.Nodup := (List.nodup_cons.mp hnd).2
  obtain ⟨a, ha, hag⟩ := List.mem_iff_getElem.mp hx
  obtain ⟨b, hb, hbg⟩ := List.mem_iff_getElem.mp hy
  have haD : rest.getD a "" = x := by
    rw [List.getD_eq_getElem?_getD, List.getElem?_eq_getElem ha]
    exact hag
  have hbD : rest.getD b "" = y := by
    rw [List.getD_eq_getElem?_getD, List.getElem?_eq_getElem hb]
    exact hbg
  have hab : a ≠ b := by
    intro he
    exact hxy (haD.symm.trans (he ▸ hbD))
  have hm3 : 3 ≤ rest.length := by omega
  obtain ⟨q, hq⟩ : ∃ q, rest.length = 2 * q + 1 := ⟨rest.length / 2, by omega⟩
  -- ZMod bookkeeping
  set half : ZMod rest.length := (((rest.length + 1) / 2 : ℕ) : ZMod rest.length) with hhalf
  set zr : ZMod rest.length :=
    half * (-((a : ZMod rest.length) + (b : ZMod rest.length) + 2)) with hzr
  set zu : ZMod rest.length :=
    half * ((a : ZMod rest.length) - (b : ZMod rest.length)) with hzu
  have h2h : ∀ w : ZMod rest.length, 2 * (half * w) = w := by
    intro w
    calc 2 * (half * w) = (2 * half) * w := by ring
      _ = 1 * w := by rw [hhalf, two_mul_half _ hm2]
      _ = w := by ring
  have h2zr : (2 : ZMod rest.length) * zr =
      -((a : ZMod rest.length) + (b : ZMod rest.length) + 2) := by
    rw [hzr]; exact h2h _
  have h2zu : (2 : ZMod rest.length) * zu =
      (a : ZMod rest.length) - (b : ZMod rest.length) := by
    rw [hzu]; exact h2h _
  have hcastab : ((a : ZMod rest.length) : ZMod rest.length) ≠ (b : ZMod rest.length) := by
    intro he
    have := natmod_eq_of_zmod _ _ _ hb he
    rw [Nat.mod_eq_of_lt ha] at this
    exact hab this
  have hzu0 : zu ≠ 0 := by
    intro h0
    apply hcastab
    have h1 : (2 : ZMod rest.length) * zu = 0 := by rw [h0]; ring
    rw [h2zu] at h1
    exact sub_eq_zero.mp h1
  have hnzu0 : -zu ≠ 0 := fun h0 => hzu0 (neg_eq_zero.mp h0)
  have hvu0 : zu.val ≠ 0 := fun h0 => hzu0 ((ZMod.val_eq_zero zu).mp h0)
  have hvnu0 : (-zu).val ≠ 0 := fun h0 => hnzu0 ((ZMod.val_eq_zero (-zu)).mp h0)
  have hvult : zu.val < rest.length := ZMod.val_lt _
  have hvnult : (-zu).val < rest.length := ZMod.val_lt _
  have hsum : zu.val + (-zu).val = rest.length := by
    have h1 : ((zu.val + (-zu).val : ℕ) : ZMod rest.length) = ((0 : ℕ) : ZMod rest.length) := by
      push_cast
      rw [ZMod.natCast_rightInverse zu, ZMod.natCast_rightInverse (-zu)]
      ring
    have h2 := (ZMod.natCast_eq_natCast_iff' _ _ _).mp h1
    rw [Nat.zero_mod] at h2
    obtain ⟨k, hk⟩ := Nat.dvd_of_mod_eq_zero h2
    rcases k with _ | _ | k
    · rw [Nat.mul_zero] at hk
      omega
    · simpa using hk
    · have h3 : rest.length * 2 ≤ rest.length * (k + 1 + 1) :=
        Nat.mul_le_mul_left _ (by omega)
      have h4 : zu.val + (-zu).val < rest.length * 2 := by omega
      rw [hk] at h4
      omega
  -- the two candidate positions, exactly one of which is in range
  have hone : (zu.val ≤ q ∧ ¬(-zu).val ≤ q) ∨ (¬zu.val ≤ q ∧ (-zu).val ≤ q) := by
    revert hsum hvu0 hvnu0
    generalize zu.val = f
    generalize (-zu).val = g
    omega
  -- cast computations for the two slot-index shapes
  have hcastj : ∀ (r i : Nat), 1 ≤ i →
      ((i - 1 + (rest.length - 1) * r : ℕ) : ZMod rest.length) =
        (i : ZMod rest.length) - 1 - (r : ZMod rest.length) := by
    intro r i h1
    rw [Nat.cast_add, Nat.cast_mul, Nat.cast_sub h1, Nat.cast_one,
      natCast_sub_self _ 1 hm1, Nat.cast_one]
    ring
  have hcasth : ∀ (r i : Nat), i + 1 ≤ rest.length →
      ((rest.length - i - 1 + (rest.length - 1) * r : ℕ) : ZMod rest.length) =
        -(i : ZMod rest.length) - 1 - (r : ZMod rest.length) := by
    intro r i h1
    rw [show rest.length - i - 1 = rest.length - (i + 1) from by omega,
      Nat.cast_add, Nat.cast_mul, natCast_sub_self _ (i + 1) h1,
      natCast_sub_self _ 1 hm1, Nat.cast_one]
    push_cast
    ring
  -- getD at position i (1 ≤ i) as a tail element, both directions
  have hmEq : ∀ (r i c : Nat), 1 ≤ i → i < rest.length → c < rest.length →
      (i : ZMod rest.length) - 1 - (r : ZMod rest.length) = (c : ZMod rest.length) →
      (rotateOnce^[r] (t :: rest)).getD i "" = rest.getD c "" := by
    intro r i c h1 hil hc hz
    have h2 := iterate_getD_succ t rest hne r (i - 1) (by omega)
    rw [show i - 1 + 1 = i from by omega] at h2
    rw [h2]
    congr 1
    refine natmod_eq_of_zmod _ _ _ hc ?_
    rw [hcastj r i h1]
    exact hz
  have hmInv : ∀ (r i c : Nat), 1 ≤ i → i < rest.length → c < rest.length →
      (rotateOnce^[r] (t :: rest)).getD i "" = rest.getD c "" →
      (i : ZMod rest.length) - 1 - (r : ZMod rest.length) = (c : ZMod rest.length) := by
    intro r i c h1 hil hc h
    have h2 := iterate_getD_succ t rest hne r (i - 1) (by omega)
    rw [show i - 1 + 1 = i from by omega] at h2
    rw [h2] at h
    have h3 := rest_getD_inj rest hrnd _ c (Nat.mod_lt _ (by omega)) hc h
    have h4 := zmod_eq_of_natmod rest.length (i - 1 + (rest.length - 1) * r) c
      (by rw [Nat.mod_eq_of_lt hc]; exact h3)
    rw [hcastj r i h1] at h4
    exact h4
  -- getD at the away position (rest.length - i), both directions
  have hawEq : ∀ (r i c : Nat), i < (rest.length + 1) / 2 → c < rest.length →
      (-(i : ZMod rest.length) - 1 - (r : ZMod rest.length) = (c : ZMod rest.length)) →
      (rotateOnce^[r] (t :: rest)).getD (rest.length - i) "" = rest.getD c "" := by
    intro r i c h1 hc hz
    rw [iterate_getD_high t rest hne r i h1]
    congr 1
    refine natmod_eq_of_zmod _ _ _ hc ?_
    rw [hcasth r i (by omega)]
    exact hz
  have hawInv : ∀ (r i c : Nat), i < (rest.length + 1) / 2 → c < rest.length →
      (rotateOnce^[r] (t :: rest)).getD (rest.length - i) "" = rest.getD c "" →
      -(i : ZMod rest.length) - 1 - (r : ZMod rest.length) = (c : ZMod rest.length) := by
    intro r i c h1 hc h
    rw [iterate_getD_high t rest hne r i h1] at h
    have h3 := rest_getD_inj rest hrnd _ c (Nat.mod_lt _ (by omega)) hc h
    have h4 := zmod_eq_of_natmod rest.length
      (rest.length - i - 1 + (rest.length - 1) * r) c
      (by rw [Nat.mod_eq_of_lt hc]; exact h3)
    rw [hcasth r i (by omega)] at h4
    exact h4
  -- the unique round and position
  set r₀ : Nat := zr.val with hr₀
  have hr₀lt : r₀ < rest.length := by rw [hr₀]; exact ZMod.val_lt _
  have hr₀cast : ((r₀ : ℕ) : ZMod rest.length) = zr := by
    rw [hr₀]; exact ZMod.natCast_rightInverse zr
  set i₀ : Nat := if zu.val ≤ q then zu.val else (-zu).val with hi₀
  have hi₀1 : 1 ≤ i₀ := by rw [hi₀]; split <;> omega
  have hi₀q : i₀ ≤ q := by rw [hi₀]; split <;> omega
  have hi₀lt : i₀ < (rest.length + 1) / 2 := by omega
  refine ⟨r₀, i₀, hr₀lt, hi₀lt, ?_, ?_⟩
  · -- existence
    rcases hone with ⟨hvuq, _⟩ | ⟨hvuq, hvnuq⟩
    · have hi₀v : i₀ = zu.val := by rw [hi₀, if_pos hvuq]
      have hi₀cast : ((i₀ : ℕ) : ZMod rest.length) = zu := by
        rw [hi₀v]; exact ZMod.natCast_rightInverse zu
      refine Or.inl ⟨(hmEq r₀ i₀ a hi₀1 (by omega) ha ?_).trans haD, (hawEq r₀ i₀ b hi₀lt hb ?_).trans hbD⟩
      · rw [hi₀cast, hr₀cast]
        refine zmod_cancel_two _ hm2 _ _ ?_
        linear_combination h2zu - h2zr
      · rw [hi₀cast, hr₀cast]
        refine zmod_cancel_two _ hm2 _ _ ?_
        linear_combination -h2zu - h2zr
    · have hi₀v : i₀ = (-zu).val := by rw [hi₀, if_neg hvuq]
      have hi₀cast : ((i₀ : ℕ) : ZMod rest.length) = -zu := by
        rw [hi₀v]; exact ZMod.natCast_rightInverse (-zu)
      refine Or.inr ⟨(hmEq r₀ i₀ b hi₀1 (by omega) hb ?_).trans hbD, (hawEq r₀ i₀ a hi₀lt ha ?_).trans haD⟩
      · rw [hi₀cast, hr₀cast]
        refine zmod_cancel_two _ hm2 _ _ ?_
        linear_combination -h2zu - h2zr
      · rw [hi₀cast, hr₀cast]
        refine zmod_cancel_two _ hm2 _ _ ?_
        linear_combination h2zu - h2zr
  · -- uniqueness
    intro r i hr hi hQ
    have hi1 : 1 ≤ i := by
      rcases Nat.eq_zero_or_pos i with h0 | h1
      · exfalso
        subst h0
        rcases hQ with ⟨hhm, _⟩ | ⟨hhm, _⟩ <;>
          rw [iterate_getD_zero t rest hne r] at hhm
        · exact hts (hhm ▸ hx)
        · exact hts (hhm ▸ hy)
      · exact h1
    have hiq : i ≤ q := by omega
    rcases hQ with ⟨hhm, haw⟩ | ⟨hhm, haw⟩
    · have h1 := hmInv r i a hi1 (by omega) ha (hhm.trans haD.symm)
      have h2 := hawInv r i b hi hb (haw.trans hbD.symm)
      have hrz : ((r : ℕ) : ZMod rest.length) = zr := by
        refine zmod_cancel_two _ hm2 _ _ ?_
        linear_combination -h1 - h2 - h2zr
      have hiz : ((i : ℕ) : ZMod rest.length) = zu := by
        refine zmod_cancel_two _ hm2 _ _ ?_
        linear_combination h1 - h2 - h2zu
      have hre : r = r₀ := by
        have h3 := natmod_eq_of_zmod rest.length r r₀ hr₀lt (by rw [hrz, hr₀cast])
        rwa [Nat.mod_eq_of_lt hr] at h3
      have hie : i = zu.val := by
        have h3 := natmod_eq_of_zmod rest.length i zu.val hvult
          (by rw [hiz, ZMod.natCast_rightInverse zu])
        rwa [Nat.mod_eq_of_lt (by omega : i < rest.length)] at h3
      refine ⟨hre, ?_⟩
      rw [hi₀, if_pos (hie ▸ hiq)]
      exact hie
    · have h1 := hmInv r i b hi1 (by omega) hb (hhm.trans hbD.symm)
      have h2 := hawInv r i a hi ha (haw.trans haD.symm)
      have hrz : ((r : ℕ) : ZMod rest.length) = zr := by
        refine zmod_cancel_two _ hm2 _ _ ?_
        linear_combination -h1 - h2 - h2zr
      have hiz : ((i : ℕ) : ZMod rest.length) = -zu := by
        refine zmod_cancel_two _ hm2 _ _ ?_
        linear_combination h1 - h2 + h2zu
      have hre : r = r₀ := by
        have h3 := natmod_eq_of_zmod rest.length r r₀ hr₀lt (by rw [hrz, hr₀cast])
        rwa [Nat.mod_eq_of_lt hr] at h3
      have hie : i = (-zu).val := by
        have h3 := natmod_eq_of_zmod rest.length i (-zu).val hvnult
          (by rw [hiz, ZMod.natCast_rightInverse (-zu)])
        rwa [Nat.mod_eq_of_lt (by omega : i < rest.length)] at h3
      refine ⟨hre, ?_⟩
      rw [hi₀, if_neg (by omega : ¬zu.val ≤ q)]
      exact hie


lemma rr_core (t : String) (rest : List String) (x y : String)
    (hm2 : rest.length % 2 = 1) (hnd : (t :: rest).Nodup)
    (hx : x ∈ t :: rest) (hy : y ∈ t :: rest) (hxy : x ≠ y) :
    ∃ r₀ i₀, r₀ < rest.length ∧ i₀ < (rest.length + 1) / 2 ∧
      (((rotateOnce^[r₀] (t :: rest)).getD i₀ "" = x ∧
        (rotateOnce^[r₀] (t :: rest)).getD (rest.length - i₀) "" = y) ∨
       ((rotateOnce^[r₀] (t :: rest)).getD i₀ "" = y ∧
        (rotateOnce^[r₀] (t :: rest)).getD (rest.length - i₀) "" = x)) ∧
      ∀ r i, r < rest.length → i < (rest.length + 1) / 2 →
        (((rotateOnce^[r] (t :: rest)).getD i "" = x ∧
          (rotateOnce^[r] (t :: rest)).getD (rest.length - i) "" = y) ∨
         ((rotateOnce^[r] (t :: rest)).getD i "" = y ∧
          (rotateOnce^[r] (t :: rest)).getD (rest.length - i) "" = x)) →
        r = r₀ ∧ i = i₀ := by
  rcases List.mem_cons.mp hx with hxt | hxr
  · rcases List.mem_cons.mp hy with hyt | hyr
    · exact absurd (hxt.trans hyt.symm) hxy
    · subst hxt
      obtain ⟨r₀, hr₀, hh0, hhy, huniq⟩ := rr_core_head x rest y hm2 hnd hyr
      exact ⟨r₀, 0, hr₀, by omega, Or.inl ⟨hh0, hhy⟩, huniq⟩
  · rcases List.mem_cons.mp hy with hyt | hyr
    · subst hyt
      obtain ⟨r₀, hr₀, hh0, hhx, huniq⟩ := rr_core_head y rest x hm2 hnd hxr
      refine ⟨r₀, 0, hr₀, by omega, Or.inr ⟨hh0, hhx⟩, ?_⟩
      intro r i hr hi hQ
      exact huniq r i hr hi hQ.symm
    · exact rr_core_rest t rest x y hm2 hnd hxr hyr hxy

lemma countP_eq_one_of_unique {p : Nat → Bool} {l : List Nat} (hnd : l.Nodup)
    (r₀ : Nat) (hmem : r₀ ∈ l) (hp : p r₀ = true)
    (hu : ∀ r ∈ l, p r = true → r = r₀) : l.countP p = 1 := by
  induction l with
  | nil => exact absurd hmem (List.not_mem_nil r₀)
  | cons c l ih =>
    have hcl : c ∉ l := (List.nodup_cons.mp hnd).1
    rw [List.countP_cons]
    rcases List.mem_cons.mp hmem with hc | hl
    · subst hc
      rw [if_pos hp]
      have h0 : l.countP p = 0 := by
        rw [List.countP_eq_zero]
        intro r hr hpr
        exact hcl ((hu r (List.mem_cons_of_mem _ hr) hpr) ▸ hr)
      omega
    · have hpc : ¬ p c = true := by
        intro hpc
        exact hcl ((hu c (List.mem_cons_self c l) hpc).symm ▸ hl)
      rw [if_neg hpc, Nat.add_zero]
      exact ih (List.nodup_cons.mp hnd).2 hl fun r hr hpr =>
        hu r (List.mem_cons_of_mem _ hr) hpr

lemma sum_map_single {f : Nat → Nat} {l : List Nat} (hnd : l.Nodup)
    (r₀ : Nat) (hmem : r₀ ∈ l) (h1 : f r₀ = 1)
    (h0 : ∀ r ∈ l, r ≠ r₀ → f r = 0) : (l.map f).sum = 1 := by
  induction l with
  | nil => exact absurd hmem (List.not_mem_nil r₀)
  | cons c l ih =>
    have hcl : c ∉ l := (List.nodup_cons.mp hnd).1
    rw [List.map_cons, List.sum_cons]
    rcases List.mem_cons.mp hmem with hc | hl
    · subst hc
      rw [h1]
      have h2 : (l.map f).sum = 0 := by
        apply List.sum_eq_zero
        intro v hv
        obtain ⟨r, hr, hrv⟩ := List.mem_map.mp hv
        rw [← hrv]
        exact h0 r (List.mem_cons_of_mem _ hr) (fun he => hcl (he ▸ hr))
      omega
    · have hc0 : f c = 0 :=
        h0 c (List.mem_cons_self c l) (fun he => hcl (he ▸ hl))
      rw [hc0]
      have h2 := ih (List.nodup_cons.mp hnd).2 hl fun r hr hne =>
        h0 r (List.mem_cons_of_mem _ hr) hne
      omega

lemma countP_pos_of_sum_map_one {α : Type} (w : α → Nat) (l : List α)
    (h : (l.map w).sum = 1) : l.countP (fun a => decide (0 < w a)) = 1 := by
  induction l with
  | nil => simp at h
  | cons c l ih =>
    rw [List.map_cons, List.sum_cons] at h
    rw [List.countP_cons]
    rcases Nat.eq_zero_or_pos (w c) with h0 | hpos
    · rw [h0, Nat.zero_add] at h
      rw [if_neg (by simp [h0]), Nat.add_zero]
      exact ih h
    · have hsum0 : (l.map w).sum = 0 := by omega
      have hcount : l.countP (fun a => decide (0 < w a)) = 0 := by
        rw [List.countP_eq_zero]
        intro a ha
        have hwa : w a = 0 := by
          exact List.sum_eq_zero_iff.mp hsum0 (w a) (List.mem_map.mpr ⟨a, ha, rfl⟩)
        simp [hwa]
      rw [hcount, if_pos (by simpa using hpos)]


lemma sum_map_add {α : Type} (f g : α → Nat) (l : List α) :
    (l.map fun a => f a + g a).sum = (l.map f).sum + (l.map g).sum := by
  induction l with
  | nil => rfl
  | cons c l ih =>
    simp only [List.map_cons, List.sum_cons, ih]
    omega

lemma roundPairs_count (teams : List String) (p1 p2 : String)
    (hp1 : p1 ≠ "BYE") (hp2 : p2 ≠ "BYE") :
    (roundPairs teams).count (p1, p2) =
      (List.range (teams.length / 2)).countP (fun i =>
        decide (teams.getD i "" = p1 ∧ teams.getD (teams.length - 1 - i) "" = p2)) := by
  rw [roundPairs, List.count_filterMap]
  congr 1
  funext i
  simp only []
  split_ifs with h
  · apply Bool.eq_iff_iff.mpr
    simp [Prod.ext_iff]
  · have hno : ¬(teams.getD i "" = p1 ∧ teams.getD (teams.length - 1 - i) "" = p2) := by
      rintro ⟨h1, h2⟩
      exact h ⟨fun hb => hp1 (h1 ▸ hb), fun hb => hp2 (h2 ▸ hb)⟩
    apply Bool.eq_iff_iff.mpr
    constructor
    · intro hfalse
      simp at hfalse
    · intro hd
      exact absurd (of_decide_eq_true hd) hno

lemma rr_sum_one (t : String) (rest : List String) (x y : String)
    (hm2 : rest.length % 2 = 1) (hnd : (t :: rest).Nodup)
    (hx : x ∈ t :: rest) (hy : y ∈ t :: rest) (hxy : x ≠ y)
    (hbx : x ≠ "BYE") (hby : y ≠ "BYE") :
    ((rrRounds (t :: rest) rest.length).map
        (fun rnd => rnd.count (x, y) + rnd.count (y, x))).sum = 1 := by
  have hm1 : 1 ≤ rest.length := by omega
  have hne : rest ≠ [] := List.ne_nil_of_length_pos (by omega)
  obtain ⟨r₀, i₀, hr₀, hi₀, hQ₀, huniq⟩ := rr_core t rest x y hm2 hnd hx hy hxy
  rw [rrRounds_eq_map, List.map_map]
  have hcnt : ∀ r : Nat, ∀ u v : String, u ≠ "BYE" → v ≠ "BYE" →
      (roundPairs (rotateOnce^[r] (t :: rest))).count (u, v) =
        (List.range ((rest.length + 1) / 2)).countP (fun i =>
          decide ((rotateOnce^[r] (t :: rest)).getD i "" = u ∧
            (rotateOnce^[r] (t :: rest)).getD (rest.length - i) "" = v)) := by
    intro r u v hu hv
    rw [roundPairs_count _ u v hu hv, iterate_length t rest hne r]
    simp only [Nat.add_sub_cancel]
  apply sum_map_single (List.nodup_range _) r₀ (List.mem_range.mpr hr₀)
  · show (roundPairs (rotateOnce^[r₀] (t :: rest))).count (x, y) +
        (roundPairs (rotateOnce^[r₀] (t :: rest))).count (y, x) = 1
    rw [hcnt r₀ x y hbx hby, hcnt r₀ y x hby hbx]
    rcases hQ₀ with ⟨h1, h2⟩ | ⟨h1, h2⟩
    · have hc1 : (List.range ((rest.length + 1) / 2)).countP (fun i =>
          decide ((rotateOnce^[r₀] (t :: rest)).getD i "" = x ∧
            (rotateOnce^[r₀] (t :: rest)).getD (rest.length - i) "" = y)) = 1 := by
        apply countP_eq_one_of_unique (List.nodup_range _) i₀ (List.mem_range.mpr hi₀)
        · simp only [decide_eq_true_eq]
          exact ⟨h1, h2⟩
        · intro i hi hp
          exact (huniq r₀ i hr₀ (List.mem_range.mp hi) (Or.inl (of_decide_eq_true hp))).2
      have hc2 : (List.range ((rest.length + 1) / 2)).countP (fun i =>
          decide ((rotateOnce^[r₀] (t :: rest)).getD i "" = y ∧
            (rotateOnce^[r₀] (t :: rest)).getD (rest.length - i) "" = x)) = 0 := by
        rw [List.countP_eq_zero]
        intro i hi hp
        obtain ⟨g1, g2⟩ := of_decide_eq_true hp
        obtain ⟨-, hii⟩ := huniq r₀ i hr₀ (List.mem_range.mp hi) (Or.inr ⟨g1, g2⟩)
        subst hii
        exact hxy (h1.symm.trans g1)
      rw [hc1, hc2]
    · have hc1 : (List.range ((rest.length + 1) / 2)).countP (fun i =>
          decide ((rotateOnce^[r₀] (t :: rest)).getD i "" = x ∧
            (rotateOnce^[r₀] (t :: rest)).getD (rest.length - i) "" = y)) = 0 := by
        rw [List.countP_eq_zero]
        intro i hi hp
        obtain ⟨g1, g2⟩ := of_decide_eq_true hp
        obtain ⟨-, hii⟩ := huniq r₀ i hr₀ (List.mem_range.mp hi) (Or.inl ⟨g1, g2⟩)
        subst hii
        exact hxy (g1.symm.trans h1)
      have hc2 : (List.range ((rest.length + 1) / 2)).countP (fun i =>
          decide ((rotateOnce^[r₀] (t :: rest)).getD i "" = y ∧
            (rotateOnce^[r₀] (t :: rest)).getD (rest.length - i) "" = x)) = 1 := by
        apply countP_eq_one_of_unique (List.nodup_range _) i₀ (List.mem_range.mpr hi₀)
        · simp only [decide_eq_true_eq]
          exact ⟨h1, h2⟩
        · intro i hi hp
          exact (huniq r₀ i hr₀ (List.mem_range.mp hi) (Or.inr (of_decide_eq_true hp))).2
      rw [hc1, hc2]
  · intro r hr hrne
    show (roundPairs (rotateOnce^[r] (t :: rest))).count (x, y) +
        (roundPairs (rotateOnce^[r] (t :: rest))).count (y, x) = 0
    rw [hcnt r x y hbx hby, hcnt r y x hby hbx]
    have hc1 : (List.range ((rest.length + 1) / 2)).countP (fun i =>
        decide ((rotateOnce^[r] (t :: rest)).getD i "" = x ∧
          (rotateOnce^[r] (t :: rest)).getD (rest.length - i) "" = y)) = 0 := by
      rw [List.countP_eq_zero]
      intro i hi hp
      exact hrne (huniq r i (List.mem_range.mp hr) (List.mem_range.mp hi)
        (Or.inl (of_decide_eq_true hp))).1
    have hc2 : (List.range ((rest.length + 1) / 2)).countP (fun i =>
        decide ((rotateOnce^[r] (t :: rest)).getD i "" = y ∧
          (rotateOnce^[r] (t :: rest)).getD (rest.length - i) "" = x)) = 0 := by
      rw [List.countP_eq_zero]
      intro i hi hp
      exact hrne (huniq r i (List.mem_range.mp hr) (List.mem_range.mp hi)
        (Or.inr (of_decide_eq_true hp))).1
    rw [hc1, hc2]


lemma count_map_swap (rnd : List (String × String)) (u v : String) :
    (rnd.map fun q => (q.2, q.1)).count (u, v) = rnd.count (v, u) := by
  induction rnd with
  | nil => rfl
  | cons c l ih =>
    rcases c with ⟨c1, c2⟩
    have hbeq : (((c1, c2).2, (c1, c2).1) == (u, v)) = ((c1, c2) == (v, u)) := by
      apply Bool.eq_iff_iff.mpr
      simp only [beq_iff_eq, Prod.mk.injEq]
      constructor
      · rintro ⟨e1, e2⟩
        exact ⟨e2, e1⟩
      · rintro ⟨e1, e2⟩
        exact ⟨e2, e1⟩
    rw [List.map_cons, List.count_cons, List.count_cons, ih, hbeq]

lemma pairOccs_append (A B : List (List (String × String))) (p : String × String) :
    pairOccs (A ++ B) p = pairOccs A p + pairOccs B p := by
  rw [pairOccs, pairOccs, pairOccs, List.map_append, List.sum_append]

lemma pairOccs_mirror (rnds : List (List (String × String))) (u v : String) :
    pairOccs (rnds.map fun rnd => rnd.map fun q => (q.2, q.1)) (u, v) =
      pairOccs rnds (v, u) := by
  rw [pairOccs, pairOccs, List.map_map]
  congr 1
  apply List.map_congr_left
  intro rnd hmem
  simp only [Function.comp_apply]
  exact count_map_swap rnd u v

lemma rr_master (l : List String) (x y : String)
    (hnd : l.Nodup) (hlen : 2 ≤ l.length) (hbye : "BYE" ∉ l)
    (hx : x ∈ l) (hy : y ∈ l) (hxy : x ≠ y) :
    ((rrRounds (if l.length % 2 = 1 then l ++ ["BYE"] else l)
        ((if l.length % 2 = 1 then l ++ ["BYE"] else l).length - 1)).map
      (fun rnd => rnd.count (x, y) + rnd.count (y, x))).sum = 1 := by
  have hbx : x ≠ "BYE" := fun he => hbye (he ▸ hx)
  have hby : y ≠ "BYE" := fun he => hbye (he ▸ hy)
  by_cases hpar : l.length % 2 = 1
  · rw [if_pos hpar]
    cases hl : l ++ ["BYE"] with
    | nil => simp at hl
    | cons t rest =>
      have hTnd : (t :: rest).Nodup := by
        rw [← hl]
        simp [List.nodup_append, hnd, hbye]
      have hTlen : rest.length % 2 = 1 := by
        have := congrArg List.length hl
        simp at this
        omega
      have hxT : x ∈ t :: rest := by rw [← hl]; exact List.mem_append_left _ hx
      have hyT : y ∈ t :: rest := by rw [← hl]; exact List.mem_append_left _ hy
      have hlen1 : (t :: rest).length - 1 = rest.length := by simp
      rw [hlen1]
      exact rr_sum_one t rest x y hTlen hTnd hxT hyT hxy hbx hby
  · rw [if_neg hpar]
    cases hl : l with
    | nil => rw [hl] at hlen; simp at hlen
    | cons t rest =>
      have hTnd : (t :: rest).Nodup := hl ▸ hnd
      have hTlen : rest.length % 2 = 1 := by
        have := congrArg List.length hl
        simp at this
        omega
      have hxT : x ∈ t :: rest := hl ▸ hx
      have hyT : y ∈ t :: rest := hl ▸ hy
      have hlen1 : (t :: rest).length - 1 = rest.length := by simp
      rw [hlen1]
      exact rr_sum_one t rest x y hTlen hTnd hxT hyT hxy hbx hby

/-- C3: for every list of at least two distinct team names, none of them the
sentinel `"BYE"`, and every unordered pair `{x, y}` of them: with
`home_and_away = false` exactly one round of `generate_round_robin` contains
the pair (in either orientation), and with `home_and_away = true` the pair
appears exactly twice across all rounds, once in each home/away
orientation. -/
theorem generate_round_robin_pair_coverage (l : List String) (x y : String)
    (hnd : l.Nodup) (hlen : 2 ≤ l.length) (hbye : "BYE" ∉ l)
    (hx : x ∈ l) (hy : y ∈ l) (hxy : x ≠ y) :
    (generate_round_robin l false).countP
        (fun rnd => decide ((x, y) ∈ rnd ∨ (y, x) ∈ rnd)) = 1 ∧
    pairOccs (generate_round_robin l true) (x, y) = 1 ∧
    pairOccs (generate_round_robin l true) (y, x) = 1 := by
  have hsum := rr_master l x y hnd hlen hbye hx hy hxy
  set rounds : List (List (String × String)) :=
    rrRounds (if l.length % 2 = 1 then l ++ ["BYE"] else l)
      ((if l.length % 2 = 1 then l ++ ["BYE"] else l).length - 1) with hrounds
  have hgenF : generate_round_robin l false = rounds := rfl
  have hgenT : generate_round_robin l true =
      rounds ++ rounds.map (fun rnd => rnd.map fun p => (p.2, p.1)) := rfl
  have hsum2 : ((rounds).map
      (fun rnd => rnd.count (x, y) + rnd.count (y, x))).sum = 1 := hsum
  have hadd : pairOccs rounds (x, y) + pairOccs rounds (y, x) = 1 := by
    rw [pairOccs, pairOccs, ← sum_map_add]
    exact hsum2
  refine ⟨?_, ?_, ?_⟩
  · rw [hgenF]
    have h1 := countP_pos_of_sum_map_one _ rounds hsum2
    rw [← h1]
    apply List.countP_congr
    intro rnd hmem
    simp only [decide_eq_true_eq]
    rw [← List.count_pos_iff, ← List.count_pos_iff]
    omega
  · rw [hgenT, pairOccs_append, pairOccs_mirror]
    exact hadd
  · rw [hgenT, pairOccs_append, pairOccs_mirror]
    omega


/-- C3 counterexample: the claim as stated fails for a team actually named
`"BYE"`: with the two distinct team names `"BYE"` and `"Alfa"` the pair
appears in no round at all, because the code treats the name `"BYE"` as its
synthetic bye sentinel and skips every pairing that involves it. -/
theorem generate_round_robin_bye_counterexample :
    ¬ ((generate_round_robin ["BYE", "Alfa"] false).countP
        (fun rnd => decide ((("BYE", "Alfa") ∈ rnd) ∨ (("Alfa", "BYE") ∈ rnd))) = 1) := by
  decide

/-- Witness for `generate_round_robin_pair_coverage` at the concrete input
`["Alfa", "Beta"]` with the pair `("Alfa", "Beta")`. -/
theorem generate_round_robin_pair_coverage_witness :
    (["Alfa", "Beta"] : List String).Nodup ∧
    2 ≤ (["Alfa", "Beta"] : List String).length ∧
    "BYE" ∉ (["Alfa", "Beta"] : List String) ∧
    "Alfa" ∈ (["Alfa", "Beta"] : List String) ∧
    "Beta" ∈ (["Alfa", "Beta"] : List String) ∧
    "Alfa" ≠ "Beta" ∧
    ((generate_round_robin ["Alfa", "Beta"] false).countP
        (fun rnd => decide ((("Alfa", "Beta") ∈ rnd) ∨ (("Beta", "Alfa") ∈ rnd))) = 1 ∧
     pairOccs (generate_round_robin ["Alfa", "Beta"] true) ("Alfa", "Beta") = 1 ∧
     pairOccs (generate_round_robin ["Alfa", "Beta"] true) ("Beta", "Alfa") = 1) :=
  ⟨by decide, by decide, by decide, by decide, by decide, by decide,
    generate_round_robin_pair_coverage ["Alfa", "Beta"] "Alfa" "Beta"
      (by decide) (by decide) (by decide) (by decide) (by decide) (by decide)⟩

end FixtureGen
